import Mathlib

/-!
Verification of the wildfire-frontend event pipeline.

This file shallowly embeds the core logic of the repository:

* the chunked event-stream decoder loop of `detectFireSmokeStreaming`
  (`src/services/api.js`),
* the alert orchestration handlers of `App.jsx` (streaming frame callback,
  stream completion/error callbacks, batch result handling, the live-camera
  fire callback) and `handleSatelliteFireDetected`,
* the `AudioAlertSystem` playback state machine (`src/utils/audioAlert.js`),
* the network-camera connection logic and the capture-loop statistics of
  `WebcamDetection`,
* the JSON serialization round trip used for the persisted alert/history
  ledgers (a verified model of `JSON.stringify` / `JSON.parse` on the value
  shapes the application stores).

Byte streams are modelled at the character level (`List Char`): the code uses
`TextDecoder` with `stream: true`, which reassembles UTF-8 code points split
across transport chunks, so transport chunking acts on the character stream.
JavaScript numbers appearing in computations are modelled as rationals;
numbers inside stored JSON text are modelled as exact decimals
(mantissa/scale).
-/

namespace Wildfire

/-! ## Chunked event decoder (`detectFireSmokeStreaming`, api.js lines 60-98)

The JS loop keeps a text `buffer`, appends each decoded chunk, splits the
buffer on the `"\n\n"` event delimiter (`buffer.split('\n\n')`), keeps the
trailing (possibly incomplete) piece as the new buffer (`events.pop()`),
and processes every complete piece.  `splitOnNN` is the character-level
model of `split('\n\n')`: greedy, left-to-right, non-overlapping. -/

/-- Prepend a character to the first piece of a split result
(`consHead c [[...]]`); on the empty list it starts a fresh piece. -/
def consHead (c : Char) : List (List Char) → List (List Char)
  | [] => [[c]]
  | e :: es => (c :: e) :: es

/-- Model of JavaScript `s.split('\n\n')` on a character list. -/
def splitOnNN : List Char → List (List Char)
  | [] => [[]]
  | [c] => [[c]]
  | a :: b :: rest =>
    if a = '\n' ∧ b = '\n' then [] :: splitOnNN rest
    else consHead a (splitOnNN (b :: rest))

/-- Decoder loop state: the carried-over text buffer and the complete events
emitted so far (in order). -/
structure DecState where
  buffer : List Char
  events : List (List Char)
  deriving DecidableEq, Repr

/-- One `reader.read()` iteration of the decoder loop: append the chunk to
the buffer, split on `"\n\n"`, re-buffer the trailing piece
(`buffer = events.pop() || ''`) and emit the complete events. -/
def feedChunk (s : DecState) (c : List Char) : DecState :=
  let pieces := splitOnNN (s.buffer ++ c)
  { buffer := pieces.getLastD [], events := s.events ++ pieces.dropLast }

/-- The decoder loop over a whole sequence of transport chunks. -/
def feedChunks (s : DecState) (cs : List (List Char)) : DecState :=
  cs.foldl feedChunk s

/-- Initial decoder state (`buffer = ''`). -/
def initDecState : DecState := ⟨[], []⟩

/-! ## JSON values

Model of the JavaScript value graphs the application parses (stream event
payloads) and stores (alert/history ledgers).  Numbers are exact decimals:
`jnum m scale` denotes `m / 10 ^ scale`, matching the decimal literals that
appear in the JSON text. -/

inductive JValue where
  | jnull : JValue
  | jbool : Bool → JValue
  | jnum : Int → Nat → JValue
  | jstr : String → JValue
  | jarr : List JValue → JValue
  | jobj : List (String × JValue) → JValue

/-- Decimal digits of a natural number, most significant first (helper). -/
def natDigitsGo (k : Nat) (acc : List Char) : List Char :=
  if k < 10 then Char.ofNat (48 + k) :: acc
  else natDigitsGo (k / 10) (Char.ofNat (48 + k % 10) :: acc)
termination_by k
decreasing_by exact Nat.div_lt_self (by omega) (by omega)

/-- Decimal digits of a natural number, most significant first. -/
def natDigits (n : Nat) : List Char := natDigitsGo n []

/-- Numeric value of a digit character. -/
def digitVal (c : Char) : Nat := c.toNat - 48

/-- Numeric value of a digit string (most significant first). -/
def digitsToNat (ds : List Char) : Nat := ds.foldl (fun acc c => acc * 10 + digitVal c) 0

/-- Render the decimal `m / 10 ^ scale` the way `JSON.stringify` renders the
corresponding JavaScript number (sign, integer digits, then `scale`
fractional digits when `scale > 0`). -/
def printNum (m : Int) (scale : Nat) : List Char :=
  let ds := natDigits m.natAbs
  let padded := List.replicate (scale + 1 - ds.length) '0' ++ ds
  let intPart := padded.take (padded.length - scale)
  let fracPart := padded.drop (padded.length - scale)
  (if m < 0 then ['-'] else []) ++ intPart ++
    (if scale = 0 then [] else '.' :: fracPart)

/-- String-escaping of one character, as `JSON.stringify` does for the
characters that occur in the application's strings. -/
def escapeChar (c : Char) : List Char :=
  if c = '"' then ['\\', '"']
  else if c = '\\' then ['\\', '\\']
  else if c = '\n' then ['\\', 'n']
  else if c = '\r' then ['\\', 'r']
  else if c = '\t' then ['\\', 't']
  else [c]

def escapeStr (cs : List Char) : List Char := (cs.map escapeChar).flatten

/-- A JSON string literal, quotes included. -/
def printStr (s : String) : List Char := '"' :: (escapeStr s.data ++ ['"'])

mutual

/-- Character-level model of `JSON.stringify` (no whitespace). -/
def printJ : JValue → List Char
  | .jnull => ['n', 'u', 'l', 'l']
  | .jbool true => ['t', 'r', 'u', 'e']
  | .jbool false => ['f', 'a', 'l', 's', 'e']
  | .jnum m scale => printNum m scale
  | .jstr s => printStr s
  | .jarr xs => '[' :: (printElems xs ++ [']'])
  | .jobj fs => '\x7b' :: (printMembers fs ++ ['\x7d'])

/-- Comma-separated array elements. -/
def printElems : List JValue → List Char
  | [] => []
  | [x] => printJ x
  | x :: xs => printJ x ++ ',' :: printElems xs

/-- Comma-separated object members (`"key":value`). -/
def printMembers : List (String × JValue) → List Char
  | [] => []
  | [(k, v)] => printStr k ++ ':' :: printJ v
  | (k, v) :: fs => printStr k ++ ':' :: printJ v ++ ',' :: printMembers fs

end

/-- Inverse of `escapeChar` on the escape letter. -/
def unescapeChar (c : Char) : Option Char :=
  if c = '"' then some '"'
  else if c = '\\' then some '\\'
  else if c = 'n' then some '\n'
  else if c = 'r' then some '\r'
  else if c = 't' then some '\t'
  else none

/-- Parse the body of a JSON string literal (called after the opening quote);
returns the unescaped contents and the input after the closing quote. -/
def parseStr : List Char → Option (List Char × List Char)
  | [] => none
  | c :: rest =>
    if c = '"' then some ([], rest)
    else if c = '\\' then
      match rest with
      | [] => none
      | e :: rest' =>
        match unescapeChar e, parseStr rest' with
        | some c', some (s, r) => some (c' :: s, r)
        | _, _ => none
    else
      match parseStr rest with
      | some (s, r) => some (c :: s, r)
      | none => none

/-- Decimal digit test (`'0' ≤ c ≤ '9'`). -/
def isDig (c : Char) : Bool := 48 ≤ c.toNat && c.toNat ≤ 57

/-- Take the maximal run of leading decimal digits. -/
def parseDigits : List Char → List Char × List Char
  | [] => ([], [])
  | c :: rest =>
    if isDig c then
      let p := parseDigits rest
      (c :: p.1, p.2)
    else ([], c :: rest)

/-- Strip a leading minus sign. -/
def splitSign : List Char → Bool × List Char
  | '-' :: r => (true, r)
  | cs => (false, cs)

/-- Strip a leading decimal point. -/
def splitDot : List Char → Option (List Char)
  | '.' :: r => some r
  | _ => none

/-- Parse a JSON number into mantissa/scale. -/
def parseNumber (cs : List Char) : Option ((Int × Nat) × List Char) :=
  let sgn := splitSign cs
  let p1 := parseDigits sgn.2
  if p1.1.isEmpty then none
  else
    let mkInt : Nat → Int := fun n => if sgn.1 then -(n : Int) else (n : Int)
    match splitDot p1.2 with
    | some cs3 =>
      let p2 := parseDigits cs3
      if p2.1.isEmpty then none
      else some ((mkInt (digitsToNat (p1.1 ++ p2.1)), p2.1.length), p2.2)
    | none => some ((mkInt (digitsToNat p1.1), 0), p1.2)

mutual

/-- Fuel-indexed model of `JSON.parse` for one value; returns the value and
the unconsumed input. -/
def parseVal : Nat → List Char → Option (JValue × List Char)
  | 0, _ => none
  | f + 1, cs =>
    match cs with
    | 'n' :: 'u' :: 'l' :: 'l' :: r => some (.jnull, r)
    | 't' :: 'r' :: 'u' :: 'e' :: r => some (.jbool true, r)
    | 'f' :: 'a' :: 'l' :: 's' :: 'e' :: r => some (.jbool false, r)
    | '"' :: r =>
      match parseStr r with
      | some (s, r') => some (.jstr (String.mk s), r')
      | none => none
    | '[' :: r =>
      match parseElems f r with
      | some (xs, r') => some (.jarr xs, r')
      | none => none
    | '\x7b' :: r =>
      match parseMembers f r with
      | some (fs, r') => some (.jobj fs, r')
      | none => none
    | _ =>
      match parseNumber cs with
      | some ((m, scale), r) => some (.jnum m scale, r)
      | none => none

/-- Array elements after `[`. -/
def parseElems : Nat → List Char → Option (List JValue × List Char)
  | 0, _ => none
  | f + 1, cs =>
    match cs with
    | ']' :: r => some ([], r)
    | _ =>
      match parseVal f cs with
      | some (v, r) =>
        match parseElemsTail f r with
        | some (vs, r') => some (v :: vs, r')
        | none => none
      | none => none

/-- Array elements after the first one (`,` separated, `]` terminated). -/
def parseElemsTail : Nat → List Char → Option (List JValue × List Char)
  | 0, _ => none
  | f + 1, cs =>
    match cs with
    | ']' :: r => some ([], r)
    | ',' :: r =>
      match parseVal f r with
      | some (v, r') =>
        match parseElemsTail f r' with
        | some (vs, r'') => some (v :: vs, r'')
        | none => none
      | none => none
    | _ => none

/-- Object members after `{`. -/
def parseMembers : Nat → List Char → Option (List (String × JValue) × List Char)
  | 0, _ => none
  | f + 1, cs =>
    match cs with
    | '\x7d' :: r => some ([], r)
    | _ =>
      match parseMember f cs with
      | some (kv, r) =>
        match parseMembersTail f r with
        | some (kvs, r') => some (kv :: kvs, r')
        | none => none
      | none => none

/-- Object members after the first one (`,` separated, `}` terminated). -/
def parseMembersTail : Nat → List Char → Option (List (String × JValue) × List Char)
  | 0, _ => none
  | f + 1, cs =>
    match cs with
    | '\x7d' :: r => some ([], r)
    | ',' :: r =>
      match parseMember f r with
      | some (kv, r') =>
        match parseMembersTail f r' with
        | some (kvs, r'') => some (kv :: kvs, r'')
        | none => none
      | none => none
    | _ => none

/-- One `"key":value` member. -/
def parseMember : Nat → List Char → Option ((String × JValue) × List Char)
  | 0, _ => none
  | f + 1, cs =>
    match cs with
    | '"' :: r =>
      match parseStr r with
      | some (k, r1) =>
        match r1 with
        | ':' :: r2 =>
          match parseVal f r2 with
          | some (v, r3) => some ((String.mk k, v), r3)
          | none => none
        | _ => none
      | none => none
    | _ => none

end

/-- Model of `JSON.parse`: parse one value consuming the whole input. -/
def jparse (cs : List Char) : Option JValue :=
  match parseVal (cs.length + 1) cs with
  | some (v, []) => some v
  | _ => none

/-! ## Stream event payloads (api.js lines 79-97)

For each complete event the loop checks the `'data: '` marker, parses the
remainder as JSON, and dispatches on the truthiness of `frameData.done` and
`frameData.error`; a parse failure (or a property access throwing, e.g. on a
`null` payload) is caught and the event is skipped. -/

/-- One detection entry (`{class, confidence}`).  JavaScript numbers that
take part in arithmetic are modelled as rationals. -/
structure Detection where
  cls : String
  confidence : ℚ
  deriving DecidableEq, Repr

/-- A parsed stream payload, with the fields the code reads
(absent fields behave as `undefined`, i.e. falsy / empty). -/
structure FrameData where
  frame : Nat := 0
  total_frames : Nat := 0
  has_fire : Bool := false
  detections : List Detection := []
  done : Bool := false
  error : Option String := none
  deriving DecidableEq, Repr

/-- JavaScript truthiness of a JSON value. -/
def JValue.truthy : JValue → Bool
  | .jnull => false
  | .jbool b => b
  | .jnum m _ => !(m == 0)
  | .jstr s => !(s == "")
  | .jarr _ => true
  | .jobj _ => true

/-- JavaScript property lookup on a parsed object (later duplicate keys win,
as in `JSON.parse`). -/
def jlookup (k : String) : List (String × JValue) → Option JValue
  | [] => none
  | (k', v) :: fs =>
    match jlookup k fs with
    | some w => some w
    | none => if k' = k then some v else none

/-- Read a nonnegative integer field (the shape the backend sends for frame
counters); anything else behaves as 0 in the model. -/
def jAsNat : Option JValue → Nat
  | some (.jnum m 0) => m.toNat
  | _ => 0

/-- Read a numeric field as a rational. -/
def jAsQ : Option JValue → ℚ
  | some (.jnum m s) => (m : ℚ) / (10 : ℚ) ^ s
  | _ => 0

/-- Read a string field. -/
def jAsString : Option JValue → String
  | some (.jstr s) => s
  | _ => ""

/-- Truthiness of an optionally-present field (`undefined` is falsy). -/
def jTruthy : Option JValue → Bool
  | some v => v.truthy
  | none => false

def decodeDetection : JValue → Detection
  | .jobj fs => { cls := jAsString (jlookup "class" fs),
                  confidence := jAsQ (jlookup "confidence" fs) }
  | _ => { cls := "", confidence := 0 }

/-- Interpret a parsed JSON payload as the `frameData` object the loop reads. -/
def decodeFrameData : JValue → FrameData
  | .jobj fs =>
    { frame := jAsNat (jlookup "frame" fs)
      total_frames := jAsNat (jlookup "total_frames" fs)
      has_fire := jTruthy (jlookup "has_fire" fs)
      detections :=
        match jlookup "detections" fs with
        | some (.jarr xs) => xs.map decodeDetection
        | _ => []
      done := jTruthy (jlookup "done" fs)
      error :=
        match jlookup "error" fs with
        | some v => if v.truthy then some (jAsString (some v)) else none
        | none => none }
  | _ => {}

/-- The callback invocations the decoder loop can make. -/
inductive CbEvent where
  | frame (fd : FrameData)
  | complete
  | error (msg : String)
  deriving DecidableEq, Repr

/-- Dispatch one successfully parsed payload: `done` truthy → `onComplete`,
else `error` truthy → `onError`, else `onFrameDetection`.  A `null` payload
makes the property access throw inside the surrounding `try`, so the event is
skipped. -/
def classifyPayload : JValue → Option CbEvent
  | .jnull => none
  | v =>
    let fd := decodeFrameData v
    if fd.done then some .complete
    else
      match fd.error with
      | some m => some (.error m)
      | none => some (.frame fd)

/-- Per-event processing of the loop body (marker check, parse, dispatch),
parameterized by the JSON parser. -/
def processEvent (payloadParse : List Char → Option JValue) (e : List Char) :
    List CbEvent :=
  if List.isPrefixOf "data: ".data e then
    match payloadParse (e.drop 6) with
    | none => []
    | some v => (classifyPayload v).toList
  else []

/-- The ordered list of complete events the loop extracts from chunked input. -/
def decodeEvents (chunks : List (List Char)) : List (List Char) :=
  (feedChunks initDecState chunks).events

/-- The full callback trace of the decoder loop over a chunked stream: every
complete event is processed in order, and when the reader reports end of
stream the loop calls `onComplete` once more and breaks. -/
def runCallbacks (handle : List Char → List CbEvent) (chunks : List (List Char)) :
    List CbEvent :=
  ((decodeEvents chunks).map handle).flatten ++ [CbEvent.complete]

/-- The loop's event processing with the real JSON parser. -/
def jEventHandler (e : List Char) : List CbEvent := processEvent jparse e

/-- The decoder loop of `detectFireSmokeStreaming`, end to end. -/
def runStream (chunks : List (List Char)) : List CbEvent :=
  runCallbacks jEventHandler chunks

/-! ## Alert orchestration (`App.jsx`, and the satellite handler of the
extended variant)

State visible to the claims: the alert ledger, the history ledger, the
transient popup, the emergency-stop flag, and logs of the `playFireAlarm`
calls and browser notifications issued.  Alert/history ids and display
timestamps (`Date.now()`, `toLocaleString()`) are opaque freshly generated
strings and are not modelled; `severity`, `frameNumber` and `source` are. -/

/-- The observable content of one ledger alert. -/
structure AppAlert where
  severity : String
  frameNumber : Option Nat := none
  source : Option String := none
  deriving DecidableEq, Repr

/-- The `details` object of a history item, one shape per detection path. -/
inductive HistDetails where
  | streaming (detectionCount : Nat) (framesWithFire : Nat)
      (firstFireFrame : Option Nat) (avgConfidence : ℚ)
  | batchFire (detectionCount : Nat) (avgConfidence : ℚ)
  | batchSatellite (wildfireProb : ℚ) (riskLevel : String)
  | live (source : String)
  deriving DecidableEq, Repr

/-- One detection-history entry. -/
structure AppHistoryItem where
  kind : String
  detected : Bool
  details : HistDetails
  deriving DecidableEq, Repr

/-- One `playFireAlarm` invocation: the frame being processed (when the call
comes from the streaming frame callback) and the requested duration. -/
structure AlarmEvent where
  frame : Option Nat
  duration : Nat
  deriving DecidableEq, Repr

/-- Application state plus effect logs. -/
structure AppState where
  isEmergencyStop : Bool
  alerts : List AppAlert
  history : List AppHistoryItem
  instantAlert : Option AppAlert
  alarms : List AlarmEvent
  notifications : List (Option Nat)
  errorPopups : Nat
  deriving DecidableEq, Repr

/-- The run-local closure variables of the streaming path of
`handleDetection` (`allDetections`, `firstFireFrame`, `totalFramesWithFire`). -/
structure StreamAcc where
  allDetections : List Detection
  firstFireFrame : Option Nat
  totalFramesWithFire : Nat
  deriving DecidableEq, Repr

def initAcc : StreamAcc := ⟨[], none, 0⟩

/-- JavaScript falsiness of `firstFireFrame` (`null` and `0` are falsy). -/
def jsFalsyNat : Option Nat → Bool
  | none => true
  | some 0 => true
  | some (_ + 1) => false

/-- A frame that raises an alert: `has_fire && detections.length > 0`. -/
def isFireFrame (fd : FrameData) : Bool :=
  fd.has_fire && decide (0 < fd.detections.length)

/-- The `onFrameDetection` callback of the streaming path (App.jsx lines
83-135).  `permission` models `Notification.permission === 'granted'`. -/
def onFrameDetection (permission : Bool) (st : AppState) (acc : StreamAcc)
    (fd : FrameData) : AppState × StreamAcc :=
  if isFireFrame fd then
    let total := acc.totalFramesWithFire + 1
    let firstFire := if jsFalsyNat acc.firstFireFrame then some fd.frame
                     else acc.firstFireFrame
    let st :=
      if !st.isEmergencyStop then
        let alert : AppAlert := { severity := "high", frameNumber := some fd.frame }
        let st := if total = 1 then
            { st with alarms := st.alarms ++ [(⟨some fd.frame, 3000⟩ : AlarmEvent)] }
          else st
        let st := { st with instantAlert := some alert,
                            alerts := alert :: st.alerts }
        if total = 1 && permission then
          { st with notifications := st.notifications ++ [some fd.frame] }
        else st
      else st
    (st, { allDetections := acc.allDetections ++ fd.detections,
           firstFireFrame := firstFire, totalFramesWithFire := total })
  else (st, acc)

/-- The `onComplete` callback of the streaming path (App.jsx lines 137-169):
appends one history item built from the run accumulators, always. -/
def onStreamComplete (st : AppState) (acc : StreamAcc) : AppState :=
  let n := acc.allDetections.length
  let item : AppHistoryItem :=
    { kind := "Fire & Smoke Detection (Streaming)"
      detected := decide (0 < n)
      details := .streaming n acc.totalFramesWithFire acc.firstFireFrame
        (if 0 < n then ((acc.allDetections.map Detection.confidence).sum) / (n : ℚ)
         else 0) }
  { st with history := item :: st.history }

/-- The `onError` callback of the streaming path: one browser `alert(...)`
popup, nothing else. -/
def onStreamError (st : AppState) : AppState :=
  { st with errorPopups := st.errorPopups + 1 }

/-- The whole streaming path of `handleDetection`: run the decoder loop and
feed each callback invocation to the corresponding handler. -/
def runStreamingDetection (permission : Bool) (st : AppState)
    (chunks : List (List Char)) : AppState :=
  (List.foldl
    (fun (p : AppState × StreamAcc) ev =>
      match ev with
      | CbEvent.frame fd => onFrameDetection permission p.1 p.2 fd
      | CbEvent.complete => (onStreamComplete p.1 p.2, p.2)
      | CbEvent.error _ => (onStreamError p.1, p.2))
    (st, initAcc) (runStream chunks)).1

/-- Folding only the frame callback over a list of frames (the per-frame part
of a streaming run). -/
def processFrames (permission : Bool) (p : AppState × StreamAcc)
    (frames : List FrameData) : AppState × StreamAcc :=
  frames.foldl (fun p fd => onFrameDetection permission p.1 p.2 fd) p

/-- A non-streaming detection response (App.jsx lines 180-270). -/
inductive BatchResult where
  | fireSmoke (detections : List Detection)
  | satellite (wildfire : ℚ)
  deriving DecidableEq, Repr

/-- The batch path of `handleDetection`: history is appended always; the
alert, alarm, popup and notification happen only when a threat is detected
and the emergency stop is not active. -/
def handleBatchResult (permission : Bool) (st : AppState) (r : BatchResult) :
    AppState :=
  let threat :=
    match r with
    | .fireSmoke dets => decide (0 < dets.length)
    | .satellite w => decide ((1 : ℚ)/2 < w)
  let avgConf :=
    match r with
    | .fireSmoke dets =>
      if 0 < dets.length then
        (dets.map Detection.confidence).sum / (dets.length : ℚ)
      else 0
    | .satellite _ => 0
  let item : AppHistoryItem :=
    { kind := match r with
        | .fireSmoke _ => "Fire & Smoke Detection"
        | .satellite _ => "Satellite Analysis"
      detected := threat
      details := match r with
        | .fireSmoke dets => .batchFire dets.length avgConf
        | .satellite w => .batchSatellite w
            (if 7/10 < w then "High" else if 1/2 < w then "Medium" else "Low") }
  let st := { st with history := item :: st.history }
  if threat && !st.isEmergencyStop then
    let alert : AppAlert := { severity := "high" }
    let st := { st with alerts := alert :: st.alerts,
                        alarms := st.alarms ++ [(⟨none, 3000⟩ : AlarmEvent)],
                        instantAlert := some alert }
    if permission then { st with notifications := st.notifications ++ [none] }
    else st
  else st

/-- The `onFireDetected` live-camera callback (App.jsx lines 433-456): alarm,
alert, popup and the history item are all inside the emergency-stop gate. -/
def onFireDetectedLive (st : AppState) (alert : AppAlert) : AppState :=
  if !st.isEmergencyStop then
    let st := { st with alarms := st.alarms ++ [(⟨none, 3000⟩ : AlarmEvent)] }
    let st := { st with alerts := alert :: st.alerts, instantAlert := some alert }
    let item : AppHistoryItem :=
      { kind := "Live Camera Detection", detected := true,
        details := .live "webcam" }
    { st with history := item :: st.history }
  else st

/-- Model of `handleSatelliteFireDetected` of the extended App variant (lines 82-116):
creates the alert, shows the popup, plays the alarm and issues the
notification unconditionally — there is no emergency-stop check and no
history item. -/
def handleSatelliteFireDetected (permission : Bool) (st : AppState)
    (count : Nat) : AppState :=
  let alert : AppAlert := { severity := "critical", source := some "NASA FIRMS" }
  let st := { st with alerts := alert :: st.alerts, instantAlert := some alert }
  let st := { st with alarms := st.alarms ++ [(⟨none, 2000⟩ : AlarmEvent)] }
  if permission then { st with notifications := st.notifications ++ [none] }
  else st

/-! ## Audio alarm engine (`src/utils/audioAlert.js`) -/

/-- The observable fields of the `AudioAlertSystem` singleton. -/
structure AudioState where
  audioContextInit : Bool
  isPlaying : Bool
  oscillators : Nat
  audioElemExists : Bool
  audioElemPlaying : Bool
  deriving DecidableEq, Repr

/-- The constructor state (`audioContext = null`, `isPlaying = false`,
no oscillators, `audioElement = null`). -/
def initialAudioState : AudioState := ⟨false, false, 0, false, false⟩

/-- Model of `playMP3Alarm` (lines 48-90): create/reuse the audio element, rewind it,
set `isPlaying = true` and await `play()`; a rejected `play()` resets
`isPlaying` and reports failure.  `mp3Ok` models whether `play()` resolves. -/
def playMP3Alarm (mp3Ok : Bool) (s : AudioState) : AudioState × Bool :=
  if mp3Ok then
    ({ s with audioElemExists := true, audioElemPlaying := true,
              isPlaying := true }, true)
  else
    ({ s with audioElemExists := true, isPlaying := false }, false)

/-- Model of `playGeneratedSiren` (lines 96-195): initialize the audio context, set
`isPlaying`, and register the three siren oscillators plus the pulsing bass
voice. -/
def playGeneratedSiren (s : AudioState) : AudioState :=
  { s with audioContextInit := true, isPlaying := true,
           oscillators := s.oscillators + 4 }

/-- Result of a `playFireAlarm` call: the new engine state, whether clip
playback was started by this call, and how many oscillators it created. -/
structure PlayResult where
  state : AudioState
  startedClip : Bool
  newOscillators : Nat
  deriving DecidableEq, Repr

/-- Model of `playFireAlarm` (lines 29-42): returns immediately while `isPlaying`;
otherwise tries the clip and falls back to the synthesized siren. -/
def playFireAlarm (mp3Ok : Bool) (s : AudioState) : PlayResult :=
  if s.isPlaying then ⟨s, false, 0⟩
  else
    let p := playMP3Alarm mp3Ok s
    if p.2 then ⟨p.1, true, 0⟩
    else ⟨playGeneratedSiren p.1, false, 4⟩

/-- Model of `stopAlarm` (lines 200-235): pause and rewind the clip if it is playing;
then `if (!ctx) return` — only when the audio context exists does the code go
on to fade the gain nodes, stop the oscillators and reach
`this.isPlaying = false`. -/
def stopAlarm (s : AudioState) : AudioState :=
  let s1 := if s.audioElemExists && s.audioElemPlaying then
      { s with audioElemPlaying := false }
    else s
  if !s1.audioContextInit then s1
  else { s1 with isPlaying := false }

/-! ## Capture-loop statistics (`captureAndDetect`, WebcamDetection
lines 175-271) -/

/-- Outcome of one capture tick. -/
inductive TickResult where
  | notReady
  | failure
  | success (has_fire : Bool) (detections : List Detection)
  deriving DecidableEq, Repr

/-- The `stats` state of the capture loop (`fps` omitted: it is set to the
constant 1 by `startMonitoring` and never read by the tick). -/
structure CamStats where
  framesProcessed : Nat
  fireDetections : Nat
  lastDetection : Option Nat
  deriving DecidableEq, Repr

def initStats : CamStats := ⟨0, 0, none⟩

/-- The `setStats` update of one `captureAndDetect` tick (lines 238-244):
an early return (source not ready) or a thrown request leaves the stats
unchanged; a successful response increments `framesProcessed`, increments
`fireDetections` only when `has_fire`, and refreshes `lastDetection` only
when `has_fire` (`now` is an abstract tick clock standing for
`toLocaleTimeString()`). -/
def captureStep (now : Nat) (st : CamStats) (r : TickResult) : CamStats :=
  match r with
  | .success hf _ =>
    { framesProcessed := st.framesProcessed + 1
      fireDetections := if hf then st.fireDetections + 1 else st.fireDetections
      lastDetection := if hf then some now else st.lastDetection }
  | _ => st

/-- The capture loop over a sequence of tick outcomes (tick `i` happens at
clock `i`). -/
def runCapture (st : CamStats) (ticks : List TickResult) : CamStats :=
  (ticks.foldl (fun (p : CamStats × Nat) r => (captureStep p.2 p.1 r, p.2 + 1))
    (st, 0)).1

/-! ## Network-camera connection (`startNetworkCamera`, WebcamDetection
lines 49-147)

The `img` element is an event machine: assigning `src` issues a snapshot
request; the element then fires `load` or `error` on whichever handlers are
currently installed.  The 500ms refresh interval runs whichever closure was
registered.  The proxy-path refresh closure reads the `hasPermission` value
captured when `startNetworkCamera` ran (`capturedPerm`). -/

/-- A snapshot request: target URL family, and whether a cache-busting
timestamp was appended. -/
inductive CamReq where
  | proxy (cacheBust : Bool)
  | direct (cacheBust : Bool)
  deriving DecidableEq, Repr

/-- The installed `img.onload` / `img.onerror` closures. -/
inductive CamHandler where
  | proxyLoad
  | proxyError
  | directLoad
  | directError
  deriving DecidableEq, Repr

/-- Which refresh closure the interval runs. -/
inductive RefreshKind where
  | proxyRefresh
  | directRefresh
  deriving DecidableEq, Repr

structure CamConn where
  proxyFailed : Bool
  hasPermission : Bool
  errorShown : Bool
  onloadH : CamHandler
  onerrorH : CamHandler
  intervalMode : Option RefreshKind
  pending : Bool
  requests : List CamReq
  deriving DecidableEq, Repr

/-- Assigning `img.src` issues a request. -/
def issueReq (r : CamReq) (s : CamConn) : CamConn :=
  { s with pending := true, requests := s.requests ++ [r] }

/-- Model of `startNetworkCamera` with a valid URL: install the proxy handlers and set
`img.src` to the proxy URL (lines 74-141). -/
def initCamConn : CamConn :=
  issueReq (.proxy false)
    { proxyFailed := false, hasPermission := false, errorShown := false,
      onloadH := .proxyLoad, onerrorH := .proxyError,
      intervalMode := none, pending := false, requests := [] }

/-- The four handler bodies. -/
def runHandler (h : CamHandler) (s : CamConn) : CamConn :=
  match h with
  | .proxyLoad =>
    let s := { s with hasPermission := true, errorShown := false }
    if s.intervalMode = none then { s with intervalMode := some .proxyRefresh }
    else s
  | .proxyError =>
    if !s.proxyFailed then
      issueReq (.direct false)
        { s with proxyFailed := true, errorShown := true,
                 onerrorH := .directError, onloadH := .directLoad }
    else s
  | .directLoad =>
    let s := { s with hasPermission := true, errorShown := false }
    if s.intervalMode = none then { s with intervalMode := some .directRefresh }
    else s
  | .directError =>
    { s with errorShown := true, hasPermission := false, intervalMode := none }

/-- External events: the pending request resolves (`load`/`error`), or the
refresh interval ticks. -/
inductive CamEv where
  | result (ok : Bool)
  | tick
  deriving DecidableEq, Repr

def stepCam (capturedPerm : Bool) (s : CamConn) (e : CamEv) : CamConn :=
  match e with
  | .result ok =>
    if s.pending then
      runHandler (if ok then s.onloadH else s.onerrorH) { s with pending := false }
    else s
  | .tick =>
    match s.intervalMode with
    | none => s
    | some .proxyRefresh => if capturedPerm then issueReq (.proxy true) s else s
    | some .directRefresh => issueReq (.direct true) s

def runCam (capturedPerm : Bool) (s : CamConn) (evs : List CamEv) : CamConn :=
  evs.foldl (stepCam capturedPerm) s

/-- The once-only fallback attempt: the direct, non-cache-busted request. -/
def isFallbackReq : CamReq → Bool
  | .direct false => true
  | _ => false

def isProxyReq : CamReq → Bool
  | .proxy _ => true
  | _ => false

/-! ## Persisted ledgers (App.jsx lines 22-45)

`alerts` and `detectionHistory` are serialized with `JSON.stringify` on every
mutation and restored with `JSON.parse` at startup.  The structures below are
the value shapes the application actually stores (optional fields are the
keys that are simply absent on some alert kinds); numbers are the exact
decimals appearing in the JSON text. -/

structure StoredAlert where
  id : Option String
  message : String
  details : Option String
  severity : String
  timestamp : String
  frameNumber : Option Nat
  source : Option String
  deriving DecidableEq, Repr

structure StoredDetection where
  cls : String
  confMant : Int
  confScale : Nat
  deriving DecidableEq, Repr

/-- The `details` object of a stored history item, one shape per path. -/
inductive StoredHistDetails where
  | streaming (detections : List StoredDetection) (detectionCount : Nat)
      (framesWithFire : Nat) (firstFireFrame : Option Nat)
      (avgMant : Int) (avgScale : Nat)
  | batchFire (detections : List StoredDetection) (detectionCount : Nat)
      (avgMant : Int) (avgScale : Nat)
  | batchSatellite (probMant : Int) (probScale : Nat) (riskLevel : String)
  | live (source : String) (message : String)
  deriving DecidableEq, Repr

structure StoredHistoryItem where
  id : String
  kind : String
  filename : String
  timestamp : String
  detected : Bool
  details : StoredHistDetails
  deriving DecidableEq, Repr

def optField (k : String) (v : Option JValue) : List (String × JValue) :=
  match v with
  | some j => [(k, j)]
  | none => []

def natJ (n : Nat) : JValue := .jnum (n : Int) 0

/-- The JSON object `JSON.stringify` sees for one alert (keys in insertion
order; absent optional keys omitted, as `undefined` properties are). -/
def alertToJson (a : StoredAlert) : JValue :=
  .jobj (optField "id" (a.id.map JValue.jstr) ++
    [("message", .jstr a.message)] ++
    optField "details" (a.details.map JValue.jstr) ++
    [("severity", .jstr a.severity), ("timestamp", .jstr a.timestamp)] ++
    optField "frameNumber" (a.frameNumber.map natJ) ++
    optField "source" (a.source.map JValue.jstr))

def detToJson (d : StoredDetection) : JValue :=
  .jobj [("class", .jstr d.cls), ("confidence", .jnum d.confMant d.confScale)]

def detailsToJson : StoredHistDetails → JValue
  | .streaming dets n fwf fff am as' =>
    .jobj [("detections", .jarr (dets.map detToJson)),
      ("detectionCount", natJ n), ("framesWithFire", natJ fwf),
      ("firstFireFrame", match fff with | some k => natJ k | none => .jnull),
      ("avgConfidence", .jnum am as')]
  | .batchFire dets n am as' =>
    .jobj [("detections", .jarr (dets.map detToJson)),
      ("detectionCount", natJ n), ("avgConfidence", .jnum am as')]
  | .batchSatellite pm ps risk =>
    .jobj [("wildfireProb", .jnum pm ps), ("riskLevel", .jstr risk)]
  | .live src msg =>
    .jobj [("source", .jstr src), ("message", .jstr msg)]

def histToJson (h : StoredHistoryItem) : JValue :=
  .jobj [("id", .jstr h.id), ("type", .jstr h.kind),
    ("filename", .jstr h.filename), ("timestamp", .jstr h.timestamp),
    ("detected", .jbool h.detected), ("details", detailsToJson h.details)]

def asStr : JValue → Option String
  | .jstr s => some s
  | _ => none

def asNat : JValue → Option Nat
  | .jnum m 0 => if 0 ≤ m then some m.toNat else none
  | _ => none

def asDecimal : JValue → Option (Int × Nat)
  | .jnum m s => some (m, s)
  | _ => none

def asBool : JValue → Option Bool
  | .jbool b => some b
  | _ => none

def optDecode {α : Type} (f : JValue → Option α) :
    Option JValue → Option (Option α)
  | none => some none
  | some v => (f v).map some

/-- Read back one alert object field-by-field. -/
def jsonToAlert : JValue → Option StoredAlert
  | .jobj fs => do
    let id ← optDecode asStr (jlookup "id" fs)
    let message ← (jlookup "message" fs).bind asStr
    let details ← optDecode asStr (jlookup "details" fs)
    let severity ← (jlookup "severity" fs).bind asStr
    let timestamp ← (jlookup "timestamp" fs).bind asStr
    let frameNumber ← optDecode asNat (jlookup "frameNumber" fs)
    let source ← optDecode asStr (jlookup "source" fs)
    some ⟨id, message, details, severity, timestamp, frameNumber, source⟩
  | _ => none

def jsonToDet : JValue → Option StoredDetection
  | .jobj fs => do
    let cls ← (jlookup "class" fs).bind asStr
    let conf ← (jlookup "confidence" fs).bind asDecimal
    some ⟨cls, conf.1, conf.2⟩
  | _ => none

def jsonToDetails : JValue → Option StoredHistDetails
  | .jobj fs =>
    match jlookup "framesWithFire" fs with
    | some _ => do
      let dets ← (match jlookup "detections" fs with
        | some (.jarr xs) => xs.mapM jsonToDet
        | _ => none)
      let n ← (jlookup "detectionCount" fs).bind asNat
      let fwf ← (jlookup "framesWithFire" fs).bind asNat
      let fff ← (match jlookup "firstFireFrame" fs with
        | some .jnull => some none
        | some v => (asNat v).map some
        | none => none)
      let avg ← (jlookup "avgConfidence" fs).bind asDecimal
      some (.streaming dets n fwf fff avg.1 avg.2)
    | none =>
      match jlookup "wildfireProb" fs with
      | some _ => do
        let p ← (jlookup "wildfireProb" fs).bind asDecimal
        let risk ← (jlookup "riskLevel" fs).bind asStr
        some (.batchSatellite p.1 p.2 risk)
      | none =>
        match jlookup "detectionCount" fs with
        | some _ => do
          let dets ← (match jlookup "detections" fs with
            | some (.jarr xs) => xs.mapM jsonToDet
            | _ => none)
          let n ← (jlookup "detectionCount" fs).bind asNat
          let avg ← (jlookup "avgConfidence" fs).bind asDecimal
          some (.batchFire dets n avg.1 avg.2)
        | none => do
          let src ← (jlookup "source" fs).bind asStr
          let msg ← (jlookup "message" fs).bind asStr
          some (.live src msg)
  | _ => none

def jsonToHist : JValue → Option StoredHistoryItem
  | .jobj fs => do
    let id ← (jlookup "id" fs).bind asStr
    let kind ← (jlookup "type" fs).bind asStr
    let filename ← (jlookup "filename" fs).bind asStr
    let timestamp ← (jlookup "timestamp" fs).bind asStr
    let detected ← (jlookup "detected" fs).bind asBool
    let details ← (jlookup "details" fs).bind jsonToDetails
    some ⟨id, kind, filename, timestamp, detected, details⟩
  | _ => none

/-- Model of the save step for alerts (stringify the whole array). -/
def saveAlerts (l : List StoredAlert) : List Char :=
  printJ (.jarr (l.map alertToJson))

/-- Model of the restore step at startup, read back field-by-field. -/
def loadAlerts (cs : List Char) : Option (List StoredAlert) :=
  match jparse cs with
  | some (.jarr xs) => xs.mapM jsonToAlert
  | _ => none

/-- Model of the save step for the detection history. -/
def saveHistory (l : List StoredHistoryItem) : List Char :=
  printJ (.jarr (l.map histToJson))

def loadHistory (cs : List Char) : Option (List StoredHistoryItem) :=
  match jparse cs with
  | some (.jarr xs) => xs.mapM jsonToHist
  | _ => none

/-! ### Well-formedness and parser-fuel measures -/

/-- Characters whose `JSON.stringify` escaping the model implements: the
escaped control characters plus everything from space upward. -/
def wfChar (c : Char) : Bool :=
  c = '\n' || c = '\r' || c = '\t' || decide (32 ≤ c.toNat)

def wfStr (s : String) : Bool := s.data.all wfChar

mutual

def wfJ : JValue → Bool
  | .jnull => true
  | .jbool _ => true
  | .jnum _ _ => true
  | .jstr s => wfStr s
  | .jarr xs => wfElems xs
  | .jobj fs => wfMembers fs

def wfElems : List JValue → Bool
  | [] => true
  | x :: xs => wfJ x && wfElems xs

def wfMembers : List (String × JValue) → Bool
  | [] => true
  | kv :: kvs => wfStr kv.1 && wfJ kv.2 && wfMembers kvs

end

mutual

/-- Fuel needed by `parseVal` to parse the printed form of a value. -/
def fvJ : JValue → Nat
  | .jnull => 1
  | .jbool _ => 1
  | .jnum _ _ => 1
  | .jstr _ => 1
  | .jarr xs => 1 + fvElems xs
  | .jobj fs => 1 + fvMembers fs

/-- Fuel needed by `parseElems` / `parseElemsTail`. -/
def fvElems : List JValue → Nat
  | [] => 1
  | v :: vs => 1 + max (fvJ v) (fvElems vs)

/-- Fuel needed by `parseMembers` / `parseMembersTail`. -/
def fvMembers : List (String × JValue) → Nat
  | [] => 1
  | kv :: kvs => 1 + max (1 + fvJ kv.2) (fvMembers kvs)

end

/-! ### Concrete fixtures used by witnesses and counterexamples -/

/-- A fresh application state with the emergency stop inactive. -/
def cleanState : AppState :=
  { isEmergencyStop := false, alerts := [], history := [], instantAlert := none,
    alarms := [], notifications := [], errorPopups := 0 }

/-- A fresh application state with the emergency stop active. -/
def stoppedState : AppState := { cleanState with isEmergencyStop := true }

/-- A one-detection fire frame with the given frame number and confidence. -/
def fireFrame (n : Nat) (conf : ℚ) : FrameData :=
  { frame := n, has_fire := true, detections := [⟨"fire", conf⟩] }

/-- A no-fire frame. -/
def quietFrame (n : Nat) : FrameData := { frame := n }

/-- The spec's concrete streaming scenario, §8, as the raw event stream. -/
def scenarioChunk : List Char :=
  ("data: \x7b\"frame\":1,\"has_fire\":true,\"detections\":[\x7b\"class\":\"fire\",\"confidence\":0.9\x7d]\x7d\n\n"
    ++ "data: \x7b\"frame\":2,\"has_fire\":true,\"detections\":[\x7b\"class\":\"fire\",\"confidence\":0.8\x7d]\x7d\n\n"
    ++ "data: \x7b\"done\":true\x7d\n\n").data

/-- An error sentinel followed by a further frame event. -/
def errSentinelChunk : List Char :=
  ("data: \x7b\"error\":\"boom\"\x7d\n\n"
    ++ "data: \x7b\"frame\":3,\"has_fire\":false,\"detections\":[]\x7d\n\n").data

/-- A done sentinel followed by a further frame event. -/
def doneSentinelChunk : List Char :=
  ("data: \x7b\"done\":true\x7d\n\n"
    ++ "data: \x7b\"frame\":4,\"has_fire\":false,\"detections\":[]\x7d\n\n").data

/-- Number of once-only fallback attempts in a request log. -/
def countFallback (l : List CamReq) : Nat := (l.filter isFallbackReq).length

/-- Comma-prefixed continuation of an element list (what follows the first
element inside `[...]`). -/
def printElemsTail : List JValue → List Char
  | [] => []
  | x :: xs => ',' :: (printJ x ++ printElemsTail xs)

/-- Comma-prefixed continuation of a member list. -/
def printMembersTail : List (String × JValue) → List Char
  | [] => []
  | (k, v) :: fs => ',' :: (printStr k ++ ':' :: printJ v ++ printMembersTail fs)

/-- The characters that may legitimately follow a printed value
(end of input, or a `,`/`]`/`}` delimiter). -/
def delimOk : List Char → Bool
  | [] => true
  | c :: _ => c = ',' || c = ']' || c = '\x7d'

/-- The `avgConfidence` (resp. probability) field of a history item. -/
def histAvgConf (h : AppHistoryItem) : ℚ :=
  match h.details with
  | .streaming _ _ _ v => v
  | .batchFire _ v => v
  | .batchSatellite v _ => v
  | .live _ => 0

/-- The rational denoted by the decimal literal `m / 10 ^ s`. -/
def qd (m : Int) (s : Nat) : ℚ := (m : ℚ) / (10 : ℚ) ^ s

/-- The non-numeric observables of a streaming history item:
kind, detected, detectionCount, framesWithFire, firstFireFrame. -/
def histShape (h : AppHistoryItem) : String × Bool × Nat × Nat × Option Nat :=
  match h.details with
  | .streaming n fwf fff _ => (h.kind, h.detected, n, fwf, fff)
  | _ => (h.kind, h.detected, 0, 0, none)

/-- Head of the remaining input is not a digit (or input is exhausted). -/
def noDigitHead : List Char → Bool
  | [] => true
  | c :: _ => !isDig c

def wfOptStr : Option String → Bool
  | none => true
  | some s => wfStr s

/-- The string fields of an application-producible alert are storable
(no control characters beyond the escaped ones). -/
def wfAlert (a : StoredAlert) : Bool :=
  wfOptStr a.id && wfStr a.message && wfOptStr a.details &&
    wfStr a.severity && wfStr a.timestamp && wfOptStr a.source

def wfDet (d : StoredDetection) : Bool := wfStr d.cls

def wfDetails : StoredHistDetails → Bool
  | .streaming dets _ _ _ _ _ => dets.all wfDet
  | .batchFire dets _ _ _ => dets.all wfDet
  | .batchSatellite _ _ risk => wfStr risk
  | .live src msg => wfStr src && wfStr msg

def wfHist (h : StoredHistoryItem) : Bool :=
  wfStr h.id && wfStr h.kind && wfStr h.filename && wfStr h.timestamp &&
    wfDetails h.details

/-- Concrete ledger fixtures: a streaming alert and a camera alert (no id). -/
def sampleAlerts : List StoredAlert :=
  [⟨some "alert-1", "🔥 FIRE DETECTED in frame 3!",
     some "1 detection(s) with 90.0% confidence", "high", "1/1/2026",
     some 3, none⟩,
   ⟨none, "🔥 FIRE DETECTED in webcam!", some "1 detection(s)", "high",
     "1/1/2026", none, some "webcam"⟩]

/-- Concrete history fixtures: one streaming run and one satellite batch. -/
def sampleHistory : List StoredHistoryItem :=
  [⟨"detection-1", "Fire & Smoke Detection (Streaming)", "clip.mp4",
     "1/1/2026", true, .streaming [⟨"fire", 9, 1⟩] 1 1 (some 3) 85 2⟩,
   ⟨"detection-2", "Satellite Analysis", "img.png", "1/1/2026", false,
     .batchSatellite 42 2 "Low"⟩]

/-- Invariant of the network-camera connection machine: at most one fallback
attempt ever, and before the proxy has failed there are no direct requests,
the proxy handlers are installed, and the interval (if any) runs the proxy
refresh. -/
def CamInv (s : CamConn) : Prop :=
  countFallback s.requests ≤ 1 ∧
  (s.proxyFailed = false →
    countFallback s.requests = 0 ∧ s.requests.all isProxyReq = true ∧
    s.onloadH = CamHandler.proxyLoad ∧ s.onerrorH = CamHandler.proxyError ∧
    s.intervalMode ≠ some RefreshKind.directRefresh)

end Wildfire

namespace Wildfire

/-! ### Helper list lemmas -/

theorem getLastD_append_of_ne_nil {α : Type} (a : List α) {b : List α}
    (hb : b ≠ []) (d : α) : (a ++ b).getLastD d = b.getLastD d := by
  induction a with
  | nil => rfl
  | cons x xs ih =>
    cases xs with
    | nil =>
      cases b with
      | nil => exact absurd rfl hb
      | cons y ys => simp [List.getLastD]
    | cons y ys =>
      simpa using ih

theorem dropLast_append_of_ne_nil {α : Type} (a : List α) {b : List α}
    (hb : b ≠ []) : (a ++ b).dropLast = a ++ b.dropLast := by
  induction a with
  | nil => rfl
  | cons x xs ih =>
    cases b with
    | nil => exact absurd rfl hb
    | cons y ys =>
      simp only [List.cons_append]
      rw [List.dropLast_cons_of_ne_nil (by simp), ih]

theorem splitOnNN_ne_nil (l : List Char) : splitOnNN l ≠ [] := by
  induction l using splitOnNN.induct with
  | case1 => simp [splitOnNN]
  | case2 c => simp [splitOnNN]
  | case3 a b rest h ih =>
    simp only [splitOnNN, if_pos h]
    simp
  | case4 a b rest h ih =>
    simp only [splitOnNN, if_neg h]
    cases hs : splitOnNN (b :: rest) with
    | nil => simp [consHead]
    | cons e es => simp [consHead]

theorem splitOnNN_singleton_eq {m : List Char} {e : List Char}
    (h : splitOnNN m = [e]) : e = m := by
  induction m using splitOnNN.induct generalizing e with
  | case1 =>
    simp [splitOnNN] at h; exact h
  | case2 c =>
    simp [splitOnNN] at h; exact h.symm
  | case3 a b rest hd ih =>
    simp only [splitOnNN, if_pos hd] at h
    obtain ⟨h1, h2⟩ := List.cons_eq_cons.mp h
    exact absurd h2 (splitOnNN_ne_nil rest)
  | case4 a b rest hd ih =>
    simp only [splitOnNN, if_neg hd] at h
    cases hs : splitOnNN (b :: rest) with
    | nil => exact absurd hs (splitOnNN_ne_nil _)
    | cons e' es =>
      rw [hs] at h
      simp only [consHead] at h
      obtain ⟨h1, h2⟩ := List.cons_eq_cons.mp h
      subst h2
      have := ih (e := e') hs
      subst this
      exact h1.symm

theorem getLastD_cons_ne_nil {α : Type} (a d : α) {l : List α} (h : l ≠ []) :
    (a :: l).getLastD d = l.getLastD d := by
  cases l with
  | nil => exact absurd rfl h
  | cons x xs => rfl

/-- Splitting a concatenation: the pieces of `x ++ c` are the complete pieces
of `x` followed by the pieces of (the trailing piece of `x` glued to `c`).
This is the key fact behind chunk-boundary invariance of the decoder. -/
theorem splitOnNN_append (x c : List Char) :
    splitOnNN (x ++ c) =
      (splitOnNN x).dropLast ++ splitOnNN ((splitOnNN x).getLastD [] ++ c) := by
  induction x using splitOnNN.induct with
  | case1 => simp [splitOnNN]
  | case2 a =>
    have h1 : splitOnNN [a] = [[a]] := rfl
    rw [h1]
    simp [List.getLastD]
  | case3 a b rest hd ih =>
    obtain ⟨ha, hb⟩ := hd
    subst ha; subst hb
    have hL : splitOnNN rest ≠ [] := splitOnNN_ne_nil rest
    have lhs_eq : splitOnNN (('\n' :: '\n' :: rest) ++ c)
        = [] :: splitOnNN (rest ++ c) := by
      show splitOnNN ('\n' :: '\n' :: (rest ++ c)) = _
      rw [splitOnNN]
      simp
    have rhs1 : splitOnNN ('\n' :: '\n' :: rest) = [] :: splitOnNN rest := by
      rw [splitOnNN]; simp
    rw [lhs_eq, ih, rhs1,
        List.dropLast_cons_of_ne_nil hL,
        getLastD_cons_ne_nil _ _ hL]
    rfl
  | case4 a b rest hd ih =>
    have hL : splitOnNN (b :: rest) ≠ [] := splitOnNN_ne_nil _
    have lhs_eq : splitOnNN ((a :: b :: rest) ++ c)
        = consHead a (splitOnNN ((b :: rest) ++ c)) := by
      show splitOnNN (a :: b :: (rest ++ c)) = _
      rw [splitOnNN, if_neg hd]
      rfl
    have rhs1 : splitOnNN (a :: b :: rest) = consHead a (splitOnNN (b :: rest)) := by
      rw [splitOnNN, if_neg hd]
    rw [lhs_eq, ih, rhs1]
    cases hs : splitOnNN (b :: rest) with
    | nil => exact absurd hs hL
    | cons e es =>
      cases es with
      | nil =>
        have he : e = b :: rest := splitOnNN_singleton_eq hs
        subst he
        have hr : splitOnNN (a :: b :: (rest ++ c))
            = consHead a (splitOnNN (b :: (rest ++ c))) := by
          rw [splitOnNN, if_neg hd]
        simp [consHead, List.getLastD, hr]
      | cons e2 es' =>
        have hes : (e2 :: es' : List (List Char)) ≠ [] := by simp
        simp only [consHead, List.dropLast_cons_of_ne_nil hes,
          getLastD_cons_ne_nil _ _ hes, List.cons_append]

/-- One decoder iteration on the concatenation of two chunks produces the same
state as two successive iterations. -/
theorem feedChunk_append (s : DecState) (c1 c2 : List Char) :
    feedChunk (feedChunk s c1) c2 = feedChunk s (c1 ++ c2) := by
  have hkey := splitOnNN_append (s.buffer ++ c1) c2
  have hne2 : splitOnNN ((splitOnNN (s.buffer ++ c1)).getLastD [] ++ c2) ≠ [] :=
    splitOnNN_ne_nil _
  simp only [feedChunk, DecState.mk.injEq]
  rw [← List.append_assoc s.buffer c1 c2, hkey]
  constructor
  · rw [getLastD_append_of_ne_nil _ hne2]
  · rw [dropLast_append_of_ne_nil _ hne2, List.append_assoc]

/-- Feeding a list of chunks equals feeding their concatenation as one chunk. -/
theorem feedChunks_flatten (s : DecState) (c : List Char) (cs : List (List Char)) :
    feedChunks s (c :: cs) = feedChunk s (c :: cs).flatten := by
  induction cs generalizing s c with
  | nil => simp [feedChunks]
  | cons c2 cs' ih =>
    have h1 : feedChunks s (c :: c2 :: cs') = feedChunks (feedChunk s c) (c2 :: cs') := rfl
    rw [h1, ih, feedChunk_append]
    simp

/-- Claim C1: chunk-boundary invariance of the stream decoder — for every
character stream and every way of splitting it into transport chunks, the
decoder loop of `detectFireSmokeStreaming` extracts the same ordered list of
complete events, and hence (for any per-event processing, in particular the
real parse/dispatch) makes the same callback invocations in the same order,
as when the stream arrives as one single chunk. -/
theorem C1_chunk_boundary_invariance
    (handle : List Char → List CbEvent) (chunks : List (List Char)) :
    decodeEvents chunks = decodeEvents [chunks.flatten] ∧
      runCallbacks handle chunks = runCallbacks handle [chunks.flatten] := by
  have hev : decodeEvents chunks = decodeEvents [chunks.flatten] := by
    cases chunks with
    | nil => rfl
    | cons c cs =>
      show (feedChunks initDecState (c :: cs)).events
          = (feedChunks initDecState [(c :: cs).flatten]).events
      rw [feedChunks_flatten]
      rfl
  exact ⟨hev, by unfold runCallbacks; rw [hev]⟩

/-- Claim C6 (code bug): after clip-only playback (`playFireAlarm` succeeding
through `playMP3Alarm`, the audio context never initialized), `stopAlarm`
pauses the clip but hits `if (!ctx) return` before `this.isPlaying = false`,
so `isPlaying` stays `true` — contradicting the contract that `stopAlarm`
always leaves `isPlaying = false`. -/
theorem C6_stopAlarm_stuck_isPlaying_eval :
    ((playFireAlarm true initialAudioState).state.isPlaying = true) ∧
    ((playFireAlarm true initialAudioState).state.audioElemPlaying = true) ∧
    ((stopAlarm (playFireAlarm true initialAudioState).state).audioElemPlaying
      = false) ∧
    ((stopAlarm (playFireAlarm true initialAudioState).state).isPlaying
      = true) ∧
    (∀ s : AudioState, s.audioContextInit = true →
      (stopAlarm s).isPlaying = false) := by
  refine ⟨rfl, rfl, rfl, rfl, ?_⟩
  intro s h
  unfold stopAlarm
  split <;> simp_all

/-- Claim C7: alarm mutual exclusion — a `playFireAlarm` call that arrives
while `isPlaying` is `true` returns immediately: the engine state is
unchanged, no clip playback is started and no oscillators are created, so
overlapping calls leave exactly the one existing playback active. -/
theorem C7_alarm_mutual_exclusion (mp3Ok : Bool) (s : AudioState)
    (h : s.isPlaying = true) :
    playFireAlarm mp3Ok s = ⟨s, false, 0⟩ := by
  unfold playFireAlarm
  rw [h]
  rfl

/-- Witness for C7 at a concrete state: right after a first (clip) alarm
starts, a second overlapping call is a no-op. -/
theorem C7_alarm_mutual_exclusion_witness :
    ((playFireAlarm true initialAudioState).state.isPlaying = true) ∧
    playFireAlarm false (playFireAlarm true initialAudioState).state
      = ⟨(playFireAlarm true initialAudioState).state, false, 0⟩ :=
  ⟨rfl, C7_alarm_mutual_exclusion false _ rfl⟩

/-! ### Capture-loop statistics (C10) -/

theorem captureStep_mono (now : Nat) (st : CamStats) (r : TickResult) :
    st.framesProcessed ≤ (captureStep now st r).framesProcessed ∧
    st.fireDetections ≤ (captureStep now st r).fireDetections ∧
    (st.fireDetections ≤ st.framesProcessed →
      (captureStep now st r).fireDetections
        ≤ (captureStep now st r).framesProcessed) := by
  cases r with
  | notReady => simp [captureStep]
  | failure => simp [captureStep]
  | success hf dets => cases hf <;> simp [captureStep] <;> omega

theorem capture_fold_mono (ticks : List TickResult) :
    ∀ (st : CamStats) (n : Nat),
      st.framesProcessed ≤
        ((ticks.foldl
          (fun (p : CamStats × Nat) r => (captureStep p.2 p.1 r, p.2 + 1))
          (st, n)).1).framesProcessed ∧
      st.fireDetections ≤
        ((ticks.foldl
          (fun (p : CamStats × Nat) r => (captureStep p.2 p.1 r, p.2 + 1))
          (st, n)).1).fireDetections ∧
      (st.fireDetections ≤ st.framesProcessed →
        ((ticks.foldl
          (fun (p : CamStats × Nat) r => (captureStep p.2 p.1 r, p.2 + 1))
          (st, n)).1).fireDetections ≤
        ((ticks.foldl
          (fun (p : CamStats × Nat) r => (captureStep p.2 p.1 r, p.2 + 1))
          (st, n)).1).framesProcessed) := by
  induction ticks with
  | nil => intro st n; simp
  | cons r rest ih =>
    intro st n
    have hstep := captureStep_mono n st r
    have hrec := ih (captureStep n st r) (n + 1)
    simp only [List.foldl_cons]
    exact ⟨le_trans hstep.1 hrec.1, le_trans hstep.2.1 hrec.2.1,
      fun h => hrec.2.2 (hstep.2.2 h)⟩

/-- Claim C10: capture-loop statistics invariant — over every tick sequence
the counters `framesProcessed` and `fireDetections` are non-decreasing and
`fireDetections` never exceeds `framesProcessed`; a tick whose detection
request does not complete successfully leaves the stats unchanged; and
`lastDetection` changes only on a tick whose successful result has
`has_fire = true`. -/
theorem C10_capture_stats_invariants (ticks : List TickResult) (st : CamStats)
    (h : st.fireDetections ≤ st.framesProcessed) :
    (st.framesProcessed ≤ (runCapture st ticks).framesProcessed ∧
     st.fireDetections ≤ (runCapture st ticks).fireDetections ∧
     (runCapture st ticks).fireDetections
       ≤ (runCapture st ticks).framesProcessed) ∧
    (∀ (now : Nat) (s : CamStats) (r : TickResult),
        (∀ hf dets, r ≠ TickResult.success hf dets) → captureStep now s r = s) ∧
    (∀ (now : Nat) (s : CamStats) (r : TickResult),
        (captureStep now s r).lastDetection ≠ s.lastDetection →
        ∃ dets, r = TickResult.success true dets) := by
  refine ⟨?_, ?_, ?_⟩
  · have := capture_fold_mono ticks st 0
    exact ⟨this.1, this.2.1, this.2.2 h⟩
  · intro now s r hr
    cases r with
    | notReady => rfl
    | failure => rfl
    | success hf dets => exact absurd rfl (hr hf dets)
  · intro now s r hchg
    cases r with
    | notReady => exact absurd rfl hchg
    | failure => exact absurd rfl hchg
    | success hf dets =>
      cases hf with
      | false => exact absurd rfl hchg
      | true => exact ⟨dets, rfl⟩

/-- Witness for C10 at a concrete tick sequence. -/
theorem C10_capture_stats_invariants_witness :
    ((initStats.fireDetections ≤ initStats.framesProcessed) ∧
     (initStats.framesProcessed ≤
        (runCapture initStats
          [TickResult.success true [], TickResult.failure,
           TickResult.success false []]).framesProcessed)) := by
  refine ⟨by decide, ?_⟩
  exact (C10_capture_stats_invariants
    [TickResult.success true [], TickResult.failure, TickResult.success false []]
    initStats (by decide)).1.1

/-! ### Emergency-stop gating (C2) -/

/-- Counterexample to claim C2 as stated: with the emergency stop active, a
satellite fire detection (`handleSatelliteFireDetected`) still appends an
alert to the ledger and still invokes `playFireAlarm` — and records no
history item. -/
theorem C2_counterexample_satellite_ungated :
    stoppedState.isEmergencyStop = true ∧
    (handleSatelliteFireDetected true stoppedState 3).alerts.length = 1 ∧
    (handleSatelliteFireDetected true stoppedState 3).alarms
      = [⟨none, 2000⟩] ∧
    (handleSatelliteFireDetected true stoppedState 3).history = [] :=
  ⟨rfl, rfl, rfl, rfl⟩

/-- Claim C2, amended: emergency-stop gating holds on the streaming-frame,
batch and live-camera paths (no alert, no alarm while stopped; streaming
completion and batch runs still record history, but the live-camera path
records history only when not stopped), while the satellite-alert path is
not gated at all (alert and alarm regardless of the flag, no history); after
resume, the next fire detection on the streaming or live-camera path appends
exactly one new alert. -/
theorem C2_emergency_stop_gating_amended :
    (∀ (perm : Bool) (st : AppState) (acc : StreamAcc) (fd : FrameData),
        st.isEmergencyStop = true →
        (onFrameDetection perm st acc fd).1.alerts = st.alerts ∧
        (onFrameDetection perm st acc fd).1.alarms = st.alarms ∧
        (onFrameDetection perm st acc fd).1.history = st.history) ∧
    (∀ (st : AppState) (acc : StreamAcc),
        (onStreamComplete st acc).history.length = st.history.length + 1 ∧
        (onStreamComplete st acc).alerts = st.alerts ∧
        (onStreamComplete st acc).alarms = st.alarms) ∧
    (∀ (perm : Bool) (st : AppState) (r : BatchResult),
        st.isEmergencyStop = true →
        (handleBatchResult perm st r).alerts = st.alerts ∧
        (handleBatchResult perm st r).alarms = st.alarms ∧
        (handleBatchResult perm st r).history.length = st.history.length + 1) ∧
    (∀ (st : AppState) (a : AppAlert),
        st.isEmergencyStop = true → onFireDetectedLive st a = st) ∧
    (∀ (perm : Bool) (st : AppState) (c : Nat),
        (handleSatelliteFireDetected perm st c).alerts.length
          = st.alerts.length + 1 ∧
        (handleSatelliteFireDetected perm st c).alarms
          = st.alarms ++ [⟨none, 2000⟩] ∧
        (handleSatelliteFireDetected perm st c).history = st.history) ∧
    (∀ (perm : Bool) (st : AppState) (acc : StreamAcc) (fd : FrameData),
        st.isEmergencyStop = false → isFireFrame fd = true →
        (onFrameDetection perm st acc fd).1.alerts.length
          = st.alerts.length + 1) ∧
    (∀ (st : AppState) (a : AppAlert), st.isEmergencyStop = false →
        (onFireDetectedLive st a).alerts.length = st.alerts.length + 1) := by
  refine ⟨?_, ?_, ?_, ?_, ?_, ?_, ?_⟩
  · intro perm st acc fd h
    unfold onFrameDetection
    split
    · simp [h]
    · simp
  · intro st acc
    simp [onStreamComplete]
  · intro perm st r h
    unfold handleBatchResult
    simp [h]
  · intro st a h
    simp [onFireDetectedLive, h]
  · intro perm st c
    unfold handleSatelliteFireDetected
    split <;> simp
  · intro perm st acc fd hstop hfire
    unfold onFrameDetection
    rw [hfire]
    simp only [hstop, if_true]
    split_ifs <;> simp_all
  · intro st a h
    simp [onFireDetectedLive, h]

/-- Witness for the amended C2 at concrete states. -/
theorem C2_emergency_stop_gating_amended_witness :
    ((onFrameDetection true stoppedState initAcc (fireFrame 1 (9/10))).1.alerts
        = stoppedState.alerts) ∧
    (onFireDetectedLive stoppedState ⟨"high", none, none⟩ = stoppedState) ∧
    ((onFireDetectedLive cleanState ⟨"high", none, none⟩).alerts.length
        = cleanState.alerts.length + 1) ∧
    ((onFrameDetection true cleanState initAcc (fireFrame 1 (9/10))).1.alerts.length
        = cleanState.alerts.length + 1) :=
  ⟨(C2_emergency_stop_gating_amended.1 true stoppedState initAcc _ rfl).1,
   C2_emergency_stop_gating_amended.2.2.2.1 stoppedState _ rfl,
   C2_emergency_stop_gating_amended.2.2.2.2.2.2 cleanState _ rfl,
   C2_emergency_stop_gating_amended.2.2.2.2.2.1 true cleanState initAcc
     (fireFrame 1 (9/10)) rfl (by decide)⟩

/-! ### First-fire throttle (C5) -/

theorem onFrame_quiet (perm : Bool) (st : AppState) (acc : StreamAcc)
    (fd : FrameData) (h : isFireFrame fd = false) :
    onFrameDetection perm st acc fd = (st, acc) := by
  unfold onFrameDetection
  rw [h]
  rfl

theorem onFrame_step_pos (perm : Bool) (st : AppState) (acc : StreamAcc)
    (fd : FrameData) (h : acc.totalFramesWithFire ≠ 0) :
    (onFrameDetection perm st acc fd).1.alarms = st.alarms ∧
    (onFrameDetection perm st acc fd).1.notifications = st.notifications ∧
    (onFrameDetection perm st acc fd).2.totalFramesWithFire ≠ 0 := by
  unfold onFrameDetection
  have h1 : acc.totalFramesWithFire + 1 ≠ 1 := by omega
  split
  · simp only [h1, if_false]
    split_ifs <;> simp_all
  · exact ⟨rfl, rfl, h⟩

theorem onFrame_step_fire_zero (perm : Bool) (st : AppState) (acc : StreamAcc)
    (fd : FrameData) (h0 : acc.totalFramesWithFire = 0)
    (hs : st.isEmergencyStop = false) (hf : isFireFrame fd = true) :
    (onFrameDetection perm st acc fd).1.alarms
      = st.alarms ++ [⟨some fd.frame, 3000⟩] ∧
    (onFrameDetection perm st acc fd).1.notifications
      = st.notifications ++ (if perm then [some fd.frame] else []) ∧
    (onFrameDetection perm st acc fd).2.totalFramesWithFire ≠ 0 := by
  unfold onFrameDetection
  rw [hf]
  simp only [hs, h0, if_true]
  cases perm <;> simp

theorem onFrame_preserves (perm : Bool) (st : AppState) (acc : StreamAcc)
    (fd : FrameData) :
    (onFrameDetection perm st acc fd).1.isEmergencyStop = st.isEmergencyStop := by
  unfold onFrameDetection
  dsimp only
  split_ifs <;> rfl

theorem processFrames_pos (frames : List FrameData) :
    ∀ (perm : Bool) (st : AppState) (acc : StreamAcc),
      acc.totalFramesWithFire ≠ 0 →
      (processFrames perm (st, acc) frames).1.alarms = st.alarms ∧
      (processFrames perm (st, acc) frames).1.notifications = st.notifications := by
  induction frames with
  | nil => intro perm st acc _; exact ⟨rfl, rfl⟩
  | cons fd rest ih =>
    intro perm st acc h
    have hstep := onFrame_step_pos perm st acc fd h
    have hrec := ih perm (onFrameDetection perm st acc fd).1
      (onFrameDetection perm st acc fd).2 hstep.2.2
    have hfold : processFrames perm (st, acc) (fd :: rest)
        = processFrames perm (onFrameDetection perm st acc fd) rest := rfl
    rw [hfold]
    constructor
    · calc (processFrames perm (onFrameDetection perm st acc fd) rest).1.alarms
          = (onFrameDetection perm st acc fd).1.alarms := hrec.1
        _ = st.alarms := hstep.1
    · calc (processFrames perm (onFrameDetection perm st acc fd) rest).1.notifications
          = (onFrameDetection perm st acc fd).1.notifications := hrec.2
        _ = st.notifications := hstep.2.1

theorem processFrames_zero (frames : List FrameData) :
    ∀ (perm : Bool) (st : AppState) (acc : StreamAcc),
      acc.totalFramesWithFire = 0 → st.isEmergencyStop = false →
      (processFrames perm (st, acc) frames).1.alarms
        = st.alarms ++
          ((frames.filter isFireFrame).map
            (fun fd => AlarmEvent.mk (some fd.frame) 3000)).take 1 ∧
      (processFrames perm (st, acc) frames).1.notifications
        = st.notifications ++
          (if perm then
            ((frames.filter isFireFrame).map (fun fd => some fd.frame)).take 1
          else []) := by
  induction frames with
  | nil =>
    intro perm st acc _ _
    cases perm <;> simp [processFrames]
  | cons fd rest ih =>
    intro perm st acc h0 hs
    have hfold : processFrames perm (st, acc) (fd :: rest)
        = processFrames perm (onFrameDetection perm st acc fd) rest := rfl
    by_cases hf : isFireFrame fd = true
    · have hstep := onFrame_step_fire_zero perm st acc fd h0 hs hf
      have hrec := processFrames_pos rest perm (onFrameDetection perm st acc fd).1
        (onFrameDetection perm st acc fd).2 hstep.2.2
      rw [hfold]
      constructor
      · rw [hrec.1, hstep.1, List.filter_cons_of_pos hf]
        simp
      · rw [hrec.2, hstep.2.1, List.filter_cons_of_pos hf]
        cases perm <;> simp
    · have hf' : isFireFrame fd = false := by
        cases hq : isFireFrame fd
        · rfl
        · exact absurd hq hf
      rw [hfold, onFrame_quiet perm st acc fd hf',
        List.filter_cons_of_neg (by simp [hf'])]
      exact ih perm st acc h0 hs

theorem onFrame_fire_alerts (perm : Bool) (st : AppState) (acc : StreamAcc)
    (fd : FrameData) (hs : st.isEmergencyStop = false)
    (hf : isFireFrame fd = true) :
    (onFrameDetection perm st acc fd).1.alerts
      = AppAlert.mk "high" (some fd.frame) none :: st.alerts := by
  unfold onFrameDetection
  rw [hf]
  simp only [hs, if_true]
  split_ifs <;> simp_all

theorem processFrames_alerts (frames : List FrameData) :
    ∀ (perm : Bool) (st : AppState) (acc : StreamAcc),
      st.isEmergencyStop = false →
      (processFrames perm (st, acc) frames).1.alerts
        = ((frames.filter isFireFrame).map
            (fun fd => AppAlert.mk "high" (some fd.frame) none)).reverse
          ++ st.alerts := by
  induction frames with
  | nil => intro perm st acc _; simp [processFrames]
  | cons fd rest ih =>
    intro perm st acc hs
    have hfold : processFrames perm (st, acc) (fd :: rest)
        = processFrames perm (onFrameDetection perm st acc fd) rest := rfl
    by_cases hf : isFireFrame fd = true
    · have hstop' := onFrame_preserves perm st acc fd
      rw [hfold, ih perm (onFrameDetection perm st acc fd).1
          (onFrameDetection perm st acc fd).2 (by rw [hstop', hs]),
        onFrame_fire_alerts perm st acc fd hs hf,
        List.filter_cons_of_pos hf]
      simp
    · have hf' : isFireFrame fd = false := by
        cases hq : isFireFrame fd
        · rfl
        · exact absurd hq hf
      rw [hfold, onFrame_quiet perm st acc fd hf',
        List.filter_cons_of_neg (by simp [hf'])]
      exact ih perm st acc hs

/-- Claim C5: first-fire throttle — in a streaming run (emergency stop
inactive) whose fire frames are exactly the frames numbered 2, 5, 9 (in
arrival order), `playFireAlarm` is invoked exactly once, while processing
frame 2; the browser notification is issued at most once and only while
processing frame 2 (exactly when permission is granted); and the alert
ledger gains exactly 3 entries, one per fire frame. -/
theorem C5_first_fire_throttle (perm : Bool) (frames : List FrameData)
    (st : AppState) (hstop : st.isEmergencyStop = false)
    (hfire : (frames.filter isFireFrame).map FrameData.frame = [2, 5, 9]) :
    (processFrames perm (st, initAcc) frames).1.alarms
      = st.alarms ++ [⟨some 2, 3000⟩] ∧
    (processFrames perm (st, initAcc) frames).1.notifications
      = st.notifications ++ (if perm then [some 2] else []) ∧
    (processFrames perm (st, initAcc) frames).1.alerts.map AppAlert.frameNumber
      = [some 9, some 5, some 2] ++ st.alerts.map AppAlert.frameNumber := by
  have hz := processFrames_zero frames perm st initAcc rfl hstop
  have ha := processFrames_alerts frames perm st initAcc hstop
  obtain ⟨f0, t, hft⟩ : ∃ f0 t, frames.filter isFireFrame = f0 :: t := by
    cases hq : frames.filter isFireFrame with
    | nil => rw [hq] at hfire; simp at hfire
    | cons f0 t => exact ⟨f0, t, rfl⟩
  have hf0 : f0.frame = 2 := by
    rw [hft] at hfire
    simp only [List.map_cons, List.cons.injEq] at hfire
    exact hfire.1
  refine ⟨?_, ?_, ?_⟩
  · rw [hz.1, hft]
    simp [hf0]
  · rw [hz.2, hft]
    cases perm <;> simp [hf0]
  · rw [ha]
    simp only [List.map_append, List.map_reverse, List.map_map]
    have : (frames.filter isFireFrame).map
        (AppAlert.frameNumber ∘ fun fd => AppAlert.mk "high" (some fd.frame) none)
        = (frames.filter isFireFrame).map (fun fd => some fd.frame) := rfl
    rw [this]
    have h2 : (frames.filter isFireFrame).map (fun fd => some fd.frame)
        = [some 2, some 5, some 9] := by
      have := congrArg (List.map some) hfire
      simpa [List.map_map] using this
    rw [h2]
    rfl

/-- Witness for C5 at a concrete ten-frame run with fire in frames 2, 5, 9. -/
theorem C5_first_fire_throttle_witness :
    (cleanState.isEmergencyStop = false) ∧
    ((([quietFrame 1, fireFrame 2 (9/10), quietFrame 3, quietFrame 4,
        fireFrame 5 (8/10), quietFrame 6, quietFrame 7, quietFrame 8,
        fireFrame 9 (7/10), quietFrame 10].filter isFireFrame).map
          FrameData.frame = [2, 5, 9])) ∧
    (processFrames true (cleanState, initAcc)
        [quietFrame 1, fireFrame 2 (9/10), quietFrame 3, quietFrame 4,
         fireFrame 5 (8/10), quietFrame 6, quietFrame 7, quietFrame 8,
         fireFrame 9 (7/10), quietFrame 10]).1.alarms
      = cleanState.alarms ++ [⟨some 2, 3000⟩] := by
  refine ⟨rfl, by decide, ?_⟩
  exact (C5_first_fire_throttle true _ cleanState rfl (by decide)).1

/-! ### Terminal sentinels (C3) and the concrete scenario (C4) -/

/-- Claim C3 (code bug): the loop body calls `onComplete` / `onError` for a
sentinel but does not break out of the read loop.  Evaluating the decoder on
an error sentinel followed by a frame event shows the frame is still
delivered after the error and `onComplete` still fires at end of stream; on
a done sentinel followed by a frame event, the frame is still delivered and
`onComplete` fires twice (once at the sentinel, once at end of stream) —
contradicting "iteration ends" and "exactly once". -/
theorem C3_sentinel_not_terminal_eval :
    runStream [errSentinelChunk]
      = [CbEvent.error "boom",
         CbEvent.frame { frame := 3 },
         CbEvent.complete] ∧
    runStream [doneSentinelChunk]
      = [CbEvent.complete,
         CbEvent.frame { frame := 4 },
         CbEvent.complete] := by
  constructor <;> rfl

/-- Claim C4 (code bug): on the spec's concrete scenario the pipeline does
play the alarm exactly once (on frame 1) and appends exactly two alerts, but
it records TWO history items (both with `detectionCount = 2` and
`avgConfidence = 0.85`), not one, because `onComplete` runs both at the
`{done:true}` sentinel and again at end of stream. -/
theorem C4_concrete_scenario_eval :
    (runStreamingDetection true cleanState [scenarioChunk]).alarms
      = [⟨some 1, 3000⟩] ∧
    (runStreamingDetection true cleanState [scenarioChunk]).alerts.length = 2 ∧
    (runStreamingDetection true cleanState [scenarioChunk]).history.length = 2 ∧
    (runStreamingDetection true cleanState [scenarioChunk]).history.map histShape
      = [("Fire & Smoke Detection (Streaming)", true, 2, 2, some 1),
         ("Fire & Smoke Detection (Streaming)", true, 2, 2, some 1)] ∧
    (runStreamingDetection true cleanState [scenarioChunk]).history.map
        histAvgConf = [17/20, 17/20] := by
  refine ⟨rfl, rfl, rfl, rfl, ?_⟩
  have hsym : (runStreamingDetection true cleanState [scenarioChunk]).history.map
      histAvgConf
      = [(qd 9 1 + (qd 8 1 + 0)) / ((2 : Nat) : ℚ),
         (qd 9 1 + (qd 8 1 + 0)) / ((2 : Nat) : ℚ)] := rfl
  rw [hsym]
  norm_num [qd]

/-! ### Network-camera connection fallback (C9) -/

theorem countFallback_append (l : List CamReq) (r : CamReq) :
    countFallback (l ++ [r])
      = countFallback l + (if isFallbackReq r then 1 else 0) := by
  simp [countFallback, List.filter_append]
  split_ifs with h <;> simp [h]

theorem runHandler_inv (h : CamHandler) (s : CamConn) (hinv : CamInv s)
    (hfail : s.proxyFailed = false →
      h = CamHandler.proxyLoad ∨ h = CamHandler.proxyError) :
    CamInv (runHandler h s) := by
  obtain ⟨h1, h2⟩ := hinv
  cases h with
  | proxyLoad =>
    unfold runHandler
    dsimp only
    split
    · refine ⟨h1, fun hpf => ?_⟩
      have hpf' : s.proxyFailed = false := hpf
      obtain ⟨a1, a2, a3, a4, _⟩ := h2 hpf'
      exact ⟨a1, a2, a3, a4, by simp⟩
    · exact ⟨h1, h2⟩
  | proxyError =>
    unfold runHandler
    dsimp only
    split
    · rename_i hcond
      have hq : s.proxyFailed = false := by
        cases hqq : s.proxyFailed
        · rfl
        · rw [hqq] at hcond; cases hcond
      obtain ⟨a1, a2, a3, a4, a5⟩ := h2 hq
      refine ⟨?_, fun hc => ?_⟩
      · show countFallback (s.requests ++ [CamReq.direct false]) ≤ 1
        rw [countFallback_append]
        simp [isFallbackReq, a1]
      · exact absurd hc (by simp [issueReq])
    · exact ⟨h1, h2⟩
  | directLoad =>
    have hpf : s.proxyFailed = true := by
      cases hq : s.proxyFailed
      · rcases hfail hq with h' | h' <;> exact absurd h' (by simp)
      · rfl
    unfold runHandler
    dsimp only
    split
    · exact ⟨h1, fun hc => absurd hc (by simp [hpf])⟩
    · exact ⟨h1, fun hc => absurd hc (by simp [hpf])⟩
  | directError =>
    refine ⟨h1, fun hc => ?_⟩
    have hpf : s.proxyFailed = false := hc
    rcases hfail hpf with h' | h' <;> exact absurd h' (by simp)

theorem stepCam_inv (p : Bool) (s : CamConn) (e : CamEv) (h : CamInv s) :
    CamInv (stepCam p s e) := by
  obtain ⟨h1, h2⟩ := h
  cases e with
  | tick =>
    unfold stepCam
    cases hint : s.intervalMode with
    | none => exact ⟨h1, h2⟩
    | some rk =>
      cases rk with
      | proxyRefresh =>
        cases p with
        | false => exact ⟨h1, h2⟩
        | true =>
          refine ⟨?_, ?_⟩
          · show countFallback (s.requests ++ [CamReq.proxy true]) ≤ 1
            rw [countFallback_append]
            simpa [isFallbackReq] using h1
          · intro hpf
            have hpf' : s.proxyFailed = false := hpf
            obtain ⟨a1, a2, a3, a4, a5⟩ := h2 hpf'
            refine ⟨?_, ?_, a3, a4, by simpa [issueReq] using a5⟩
            · show countFallback (s.requests ++ [CamReq.proxy true]) = 0
              rw [countFallback_append]
              simpa [isFallbackReq] using a1
            · show (s.requests ++ [CamReq.proxy true]).all isProxyReq = true
              simp [List.all_append, a2, isProxyReq]
      | directRefresh =>
        have hpf : s.proxyFailed = true := by
          cases hq : s.proxyFailed
          · exact absurd hint ((h2 hq).2.2.2.2)
          · rfl
        refine ⟨?_, ?_⟩
        · show countFallback (s.requests ++ [CamReq.direct true]) ≤ 1
          rw [countFallback_append]
          simpa [isFallbackReq] using h1
        · intro hc
          rw [show (issueReq (CamReq.direct true) s).proxyFailed
              = s.proxyFailed from rfl, hpf] at hc
          cases hc
  | result ok =>
    unfold stepCam
    cases hp : s.pending with
    | false => exact ⟨h1, h2⟩
    | true =>
      simp only [if_true]
      have hinv0 : CamInv { s with pending := false } := ⟨h1, h2⟩
      cases ok with
      | true =>
        refine runHandler_inv s.onloadH _ hinv0 ?_
        intro hpf
        exact Or.inl (h2 hpf).2.2.1
      | false =>
        refine runHandler_inv s.onerrorH _ hinv0 ?_
        intro hpf
        exact Or.inr (h2 hpf).2.2.2.1

theorem runCam_inv (p : Bool) (evs : List CamEv) :
    ∀ (s : CamConn), CamInv s → CamInv (runCam p s evs) := by
  induction evs with
  | nil => intro s h; exact h
  | cons e rest ih =>
    intro s h
    exact ih (stepCam p s e) (stepCam_inv p s e h)

theorem initCamConn_inv : CamInv initCamConn := by
  constructor <;> simp [initCamConn, issueReq, countFallback, isFallbackReq,
    isProxyReq]

theorem runCam_ticks_direct (p : Bool) (n : Nat) :
    ∀ (s : CamConn), s.intervalMode = some RefreshKind.directRefresh →
      (runCam p s (List.replicate n CamEv.tick)).requests
        = s.requests ++ List.replicate n (CamReq.direct true) := by
  induction n with
  | zero => intro s _; simp [runCam]
  | succ n ih =>
    intro s h
    have hstep : stepCam p s CamEv.tick = issueReq (CamReq.direct true) s := by
      unfold stepCam
      rw [h]
    have hrun : runCam p s (List.replicate (n + 1) CamEv.tick)
        = runCam p (issueReq (CamReq.direct true) s)
            (List.replicate n CamEv.tick) := by
      rw [List.replicate_succ]
      show runCam p (stepCam p s CamEv.tick) (List.replicate n CamEv.tick) = _
      rw [hstep]
    rw [hrun, ih (issueReq (CamReq.direct true) s) h]
    simp [issueReq, List.replicate_succ]

/-- Claim C9: network-camera connection fallback — the first snapshot request
goes through the same-origin proxy; over any event sequence at most one
fallback (direct, non-cache-busted) attempt is ever made, and while the
proxy has not failed every issued request is a proxy request (so the
fallback happens only if the proxy request fails); when the proxy request
fails the component immediately makes exactly the one direct fallback
attempt; and after the direct attempt succeeds, every subsequent periodic
snapshot poll uses the direct URL, never the proxy. -/
theorem C9_network_camera_fallback :
    (initCamConn.requests = [CamReq.proxy false]) ∧
    (∀ (p : Bool) (evs : List CamEv),
        countFallback ((runCam p initCamConn evs).requests) ≤ 1) ∧
    (∀ (p : Bool) (evs : List CamEv),
        (runCam p initCamConn evs).proxyFailed = false →
        ((runCam p initCamConn evs).requests.all isProxyReq) = true) ∧
    (∀ (p : Bool),
        (runCam p initCamConn [CamEv.result false]).requests
          = [CamReq.proxy false, CamReq.direct false]) ∧
    (∀ (p : Bool) (n : Nat),
        (runCam p initCamConn
            (CamEv.result false :: CamEv.result true ::
              List.replicate n CamEv.tick)).requests
          = [CamReq.proxy false, CamReq.direct false]
              ++ List.replicate n (CamReq.direct true)) := by
  refine ⟨rfl, ?_, ?_, ?_, ?_⟩
  · intro p evs
    exact (runCam_inv p evs initCamConn initCamConn_inv).1
  · intro p evs h
    exact ((runCam_inv p evs initCamConn initCamConn_inv).2 h).2.1
  · intro p
    rfl
  · intro p n
    have h2 : runCam p initCamConn
        (CamEv.result false :: CamEv.result true :: List.replicate n CamEv.tick)
        = runCam p
            (stepCam p (stepCam p initCamConn (CamEv.result false))
              (CamEv.result true))
            (List.replicate n CamEv.tick) := rfl
    rw [h2, runCam_ticks_direct p n _ rfl]
    rfl

/-- Witness for C9: instantiating the only-proxy-before-failure part on a
concrete trace where the proxy request succeeds. -/
theorem C9_network_camera_fallback_witness :
    ((runCam true initCamConn [CamEv.result true]).proxyFailed = false) ∧
    ((runCam true initCamConn [CamEv.result true]).requests.all isProxyReq
      = true) ∧
    countFallback ((runCam true initCamConn
      [CamEv.result true, CamEv.tick, CamEv.tick]).requests) ≤ 1 :=
  ⟨rfl,
   C9_network_camera_fallback.2.2.1 true [CamEv.result true] rfl,
   C9_network_camera_fallback.2.1 true [CamEv.result true, CamEv.tick, CamEv.tick]⟩

/-! ### Decimal digit strings (towards the JSON round trip, C8) -/

theorem digitVal_ofNat (k : Nat) (h : k < 10) :
    digitVal (Char.ofNat (48 + k)) = k := by
  interval_cases k <;> decide

theorem isDig_ofNat (k : Nat) (h : k < 10) :
    isDig (Char.ofNat (48 + k)) = true := by
  interval_cases k <;> decide

theorem natDigitsGo_append (k : Nat) :
    ∀ acc, natDigitsGo k acc = natDigitsGo k [] ++ acc := by
  induction k using Nat.strong_induction_on with
  | _ k ih =>
    intro acc
    by_cases h : k < 10
    · unfold natDigitsGo
      simp [h]
    · have hlt : k / 10 < k := Nat.div_lt_self (by omega) (by omega)
      unfold natDigitsGo
      simp only [if_neg h]
      rw [ih (k / 10) hlt (Char.ofNat (48 + k % 10) :: acc),
        ih (k / 10) hlt [Char.ofNat (48 + k % 10)]]
      simp

theorem digitsToNat_from (l : List Char) :
    ∀ acc, l.foldl (fun acc c => acc * 10 + digitVal c) acc
      = acc * 10 ^ l.length + digitsToNat l := by
  induction l with
  | nil => intro acc; simp [digitsToNat]
  | cons c l ih =>
    intro acc
    show l.foldl _ (acc * 10 + digitVal c) = _
    rw [ih (acc * 10 + digitVal c)]
    have h0 : digitsToNat (c :: l) = digitVal c * 10 ^ l.length + digitsToNat l := by
      show l.foldl _ (0 * 10 + digitVal c) = _
      rw [ih (0 * 10 + digitVal c)]
      ring
    rw [h0]
    simp [List.length_cons]
    ring

theorem digitsToNat_append (a b : List Char) :
    digitsToNat (a ++ b) = digitsToNat a * 10 ^ b.length + digitsToNat b := by
  show (a ++ b).foldl _ 0 = _
  rw [List.foldl_append, digitsToNat_from b (a.foldl _ 0)]
  rfl

theorem digitsToNat_natDigits (n : Nat) : digitsToNat (natDigits n) = n := by
  induction n using Nat.strong_induction_on with
  | _ n ih =>
    by_cases h : n < 10
    · show digitsToNat (natDigitsGo n []) = n
      unfold natDigitsGo
      simp only [if_pos h]
      show digitsToNat [Char.ofNat (48 + n)] = n
      simp [digitsToNat, digitVal_ofNat n h]
    · have hlt : n / 10 < n := Nat.div_lt_self (by omega) (by omega)
      show digitsToNat (natDigitsGo n []) = n
      unfold natDigitsGo
      simp only [if_neg h]
      rw [natDigitsGo_append (n / 10) [Char.ofNat (48 + n % 10)],
        digitsToNat_append]
      have := ih (n / 10) hlt
      unfold natDigits at this
      rw [this]
      have h1 : digitsToNat [Char.ofNat (48 + n % 10)] = n % 10 := by
        simp [digitsToNat, digitVal_ofNat (n % 10) (by omega)]
      rw [h1]
      simp
      omega

theorem natDigits_all_dig (n : Nat) :
    ∀ c ∈ natDigits n, isDig c = true := by
  induction n using Nat.strong_induction_on with
  | _ n ih =>
    by_cases h : n < 10
    · show ∀ c ∈ natDigitsGo n [], isDig c = true
      unfold natDigitsGo
      simp only [if_pos h]
      intro c hc
      simp at hc
      subst hc
      exact isDig_ofNat n h
    · have hlt : n / 10 < n := Nat.div_lt_self (by omega) (by omega)
      show ∀ c ∈ natDigitsGo n [], isDig c = true
      unfold natDigitsGo
      simp only [if_neg h]
      rw [natDigitsGo_append (n / 10) [Char.ofNat (48 + n % 10)]]
      intro c hc
      rcases List.mem_append.mp hc with hc | hc
      · exact ih (n / 10) hlt c hc
      · simp at hc
        subst hc
        exact isDig_ofNat (n % 10) (by omega)

theorem natDigits_ne_nil (n : Nat) : natDigits n ≠ [] := by
  by_cases h : n < 10
  · show natDigitsGo n [] ≠ []
    unfold natDigitsGo
    simp [h]
  · show natDigitsGo n [] ≠ []
    unfold natDigitsGo
    simp only [if_neg h]
    rw [natDigitsGo_append (n / 10) [Char.ofNat (48 + n % 10)]]
    simp

theorem digitsToNat_replicate_zero (k : Nat) :
    digitsToNat (List.replicate k '0') = 0 := by
  induction k with
  | zero => rfl
  | succ k ih =>
    rw [List.replicate_succ]
    show (List.replicate k '0').foldl _ (0 * 10 + digitVal '0') = 0
    have : 0 * 10 + digitVal '0' = 0 := by decide
    rw [this]
    exact ih

theorem digitsToNat_pad (k : Nat) (ds : List Char) :
    digitsToNat (List.replicate k '0' ++ ds) = digitsToNat ds := by
  rw [digitsToNat_append, digitsToNat_replicate_zero]
  simp

theorem parseDigits_spec (ds : List Char) :
    ∀ rest, (∀ c ∈ ds, isDig c = true) → noDigitHead rest = true →
      parseDigits (ds ++ rest) = (ds, rest) := by
  induction ds with
  | nil =>
    intro rest _ hrest
    cases rest with
    | nil => rfl
    | cons c r =>
      unfold parseDigits
      simp only [noDigitHead, Bool.not_eq_true'] at hrest
      simp [hrest]
  | cons d ds' ih =>
    intro rest hds hrest
    unfold parseDigits
    have hd : isDig d = true := hds d (by simp)
    simp only [List.cons_append, hd, if_pos]
    rw [ih rest (fun c hc => hds c (by simp [hc])) hrest]

/-! ### Number printing and parsing (C8) -/

theorem printNum_eq (m : Int) (scale : Nat) :
    ∃ ip fp,
      printNum m scale
        = (if m < 0 then ['-'] else []) ++ ip ++
            (if scale = 0 then [] else '.' :: fp) ∧
      ip ≠ [] ∧ (∀ c ∈ ip, isDig c = true) ∧ (∀ c ∈ fp, isDig c = true) ∧
      fp.length = scale ∧ digitsToNat (ip ++ fp) = m.natAbs := by
  refine ⟨_, _, rfl, ?_, ?_, ?_, ?_, ?_⟩
  all_goals
    set D := natDigits m.natAbs with hD
    set P := List.replicate (scale + 1 - D.length) '0' ++ D with hP
    have hDne : D ≠ [] := natDigits_ne_nil _
    have hDlen : 1 ≤ D.length := List.length_pos.mpr hDne
    have hPlen : scale + 1 ≤ P.length := by
      rw [hP, List.length_append, List.length_replicate]
      omega
    have hPdig : ∀ c ∈ P, isDig c = true := by
      intro c hc
      rcases List.mem_append.mp hc with hc | hc
      · rw [List.eq_of_mem_replicate hc]; decide
      · exact natDigits_all_dig _ c hc
  · have : (P.take (P.length - scale)).length = P.length - scale := by
      rw [List.length_take]
      omega
    intro hnil
    rw [hnil] at this
    simp at this
    omega
  · intro c hc
    exact hPdig c (List.take_subset _ _ hc)
  · intro c hc
    exact hPdig c (List.drop_subset _ _ hc)
  · rw [List.length_drop]
    omega
  · rw [List.take_append_drop, hP, digitsToNat_pad, hD, digitsToNat_natDigits]

theorem delimOk_noDigit (rest : List Char) (h : delimOk rest = true) :
    noDigitHead rest = true := by
  cases rest with
  | nil => rfl
  | cons c r =>
    simp [delimOk] at h
    rcases h with (h | h) | h <;> subst h <;> rfl

theorem splitDot_delim (rest : List Char) (h : delimOk rest = true) :
    splitDot rest = none := by
  cases rest with
  | nil => rfl
  | cons c r =>
    simp [delimOk] at h
    rcases h with (h | h) | h <;> subst h <;> rfl

theorem isDig_ne_minus {c : Char} (h : isDig c = true) : c ≠ '-' := by
  intro he
  subst he
  simp [isDig] at h

theorem splitSign_digit (c : Char) (tl : List Char) (h : isDig c = true) :
    splitSign (c :: tl) = (false, c :: tl) := by
  unfold splitSign
  split
  · rename_i heq
    injection heq with h1 _
    exact isDig_ne_minus h h1 |>.elim
  · rfl

theorem isEmpty_false_of_ne_nil {α : Type} {l : List α} (h : l ≠ []) :
    l.isEmpty = false := by
  cases l with
  | nil => exact absurd rfl h
  | cons a b => rfl

theorem parseNumber_printNum (m : Int) (scale : Nat) (rest : List Char)
    (h : delimOk rest = true) :
    parseNumber (printNum m scale ++ rest) = some ((m, scale), rest) := by
  obtain ⟨ip, fp, hpr, hipne, hipd, hfpd, hfplen, hval⟩ := printNum_eq m scale
  have hnd : noDigitHead rest = true := delimOk_noDigit rest h
  obtain ⟨c0, ip', hip⟩ : ∃ c0 ip', ip = c0 :: ip' := by
    cases ip with
    | nil => exact absurd rfl hipne
    | cons a b => exact ⟨a, b, rfl⟩
  have hc0 : isDig c0 = true := hipd c0 (by rw [hip]; simp)
  have hie : ip.isEmpty = false := isEmpty_false_of_ne_nil hipne
  have hsgn : splitSign (ip ++ ('.' :: (fp ++ rest))) = (false, ip ++ ('.' :: (fp ++ rest))) := by
    rw [hip, List.cons_append]
    exact splitSign_digit c0 _ hc0
  have hsgn2 : splitSign (ip ++ rest) = (false, ip ++ rest) := by
    rw [hip, List.cons_append]
    exact splitSign_digit c0 _ hc0
  have hdotfree : noDigitHead ('.' :: (fp ++ rest)) = true := rfl
  rw [hpr]
  by_cases hm : m < 0 <;> by_cases hs : scale = 0
  · -- negative, integer
    have hfp : fp = [] := List.eq_nil_of_length_eq_zero (hs ▸ hfplen)
    rw [hfp, List.append_nil] at hval
    have hform : ((if m < 0 then ['-'] else []) ++ ip ++
        (if scale = 0 then [] else '.' :: fp)) ++ rest = '-' :: (ip ++ rest) := by
      simp [hm, hs]
    rw [hform]
    unfold parseNumber
    rw [show splitSign ('-' :: (ip ++ rest)) = (true, ip ++ rest) from rfl]
    dsimp only
    rw [parseDigits_spec ip rest hipd hnd]
    dsimp only
    rw [hie]
    simp only [Bool.false_eq_true, if_false]
    rw [splitDot_delim rest h]
    have hmv : -(↑(digitsToNat ip) : Int) = m := by rw [hval]; omega
    simp [hs, hmv]
  · -- negative, fractional
    have hform : ((if m < 0 then ['-'] else []) ++ ip ++
        (if scale = 0 then [] else '.' :: fp)) ++ rest
          = '-' :: (ip ++ ('.' :: (fp ++ rest))) := by
      simp [hm, hs]
    rw [hform]
    unfold parseNumber
    rw [show splitSign ('-' :: (ip ++ ('.' :: (fp ++ rest))))
        = (true, ip ++ ('.' :: (fp ++ rest))) from rfl]
    dsimp only
    rw [parseDigits_spec ip ('.' :: (fp ++ rest)) hipd hdotfree]
    dsimp only
    rw [hie]
    simp only [Bool.false_eq_true, if_false]
    rw [show splitDot ('.' :: (fp ++ rest)) = some (fp ++ rest) from rfl]
    dsimp only
    rw [parseDigits_spec fp rest hfpd hnd]
    dsimp only
    have hfpe : fp.isEmpty = false := by
      refine isEmpty_false_of_ne_nil ?_
      intro hx
      rw [hx] at hfplen
      exact hs (by simpa using hfplen.symm)
    rw [hfpe]
    have hmv : -(↑(digitsToNat (ip ++ fp)) : Int) = m := by rw [hval]; omega
    simp [hmv, hfplen]
  · -- nonnegative, integer
    have hfp : fp = [] := List.eq_nil_of_length_eq_zero (hs ▸ hfplen)
    rw [hfp, List.append_nil] at hval
    have hform : ((if m < 0 then ['-'] else []) ++ ip ++
        (if scale = 0 then [] else '.' :: fp)) ++ rest = ip ++ rest := by
      simp [hm, hs]
    rw [hform]
    unfold parseNumber
    rw [hsgn2]
    dsimp only
    rw [parseDigits_spec ip rest hipd hnd]
    dsimp only
    rw [hie]
    simp only [Bool.false_eq_true, if_false]
    rw [splitDot_delim rest h]
    have hmv : (↑(digitsToNat ip) : Int) = m := by rw [hval]; omega
    simp [hs, hmv]
  · -- nonnegative, fractional
    have hform : ((if m < 0 then ['-'] else []) ++ ip ++
        (if scale = 0 then [] else '.' :: fp)) ++ rest
          = ip ++ ('.' :: (fp ++ rest)) := by
      simp [hm, hs]
    rw [hform]
    unfold parseNumber
    rw [hsgn]
    dsimp only
    rw [parseDigits_spec ip ('.' :: (fp ++ rest)) hipd hdotfree]
    dsimp only
    rw [hie]
    simp only [Bool.false_eq_true, if_false]
    rw [show splitDot ('.' :: (fp ++ rest)) = some (fp ++ rest) from rfl]
    dsimp only
    rw [parseDigits_spec fp rest hfpd hnd]
    dsimp only
    have hfpe : fp.isEmpty = false := by
      refine isEmpty_false_of_ne_nil ?_
      intro hx
      rw [hx] at hfplen
      exact hs (by simpa using hfplen.symm)
    rw [hfpe]
    have hmv : (↑(digitsToNat (ip ++ fp)) : Int) = m := by rw [hval]; omega
    simp [hmv, hfplen]

/-! ### String escaping round trip (C8) -/

theorem parseStr_esc_step (e c' : Char) (tl : List Char)
    (hu : unescapeChar e = some c') :
    parseStr ('\\' :: e :: tl)
      = match parseStr tl with
        | some (s, r) => some (c' :: s, r)
        | none => none := by
  have h0 : parseStr ('\\' :: e :: tl)
      = match unescapeChar e, parseStr tl with
        | some c'', some (s, r) => some (c'' :: s, r)
        | _, _ => none := by
    conv_lhs => rw [parseStr]
    rw [if_neg (by decide), if_pos rfl]
  rw [h0, hu]
  cases hp : parseStr tl with
  | none => rfl
  | some p => rfl

theorem parseStr_plain (c : Char) (tl : List Char) (h1 : c ≠ '"')
    (h2 : c ≠ '\\') :
    parseStr (c :: tl)
      = match parseStr tl with
        | some (s, r) => some (c :: s, r)
        | none => none := by
  conv_lhs => rw [parseStr.eq_def]
  dsimp only
  rw [if_neg h1, if_neg h2]

theorem escape_parseStr (cs : List Char) :
    ∀ rest, parseStr (escapeStr cs ++ ('"' :: rest)) = some (cs, rest) := by
  induction cs with
  | nil =>
    intro rest
    show parseStr ('"' :: rest) = _
    conv_lhs => rw [parseStr.eq_def]
    dsimp only
    rw [if_pos rfl]
  | cons c cs' ih =>
    intro rest
    have hesc : escapeStr (c :: cs') ++ ('"' :: rest)
        = escapeChar c ++ (escapeStr cs' ++ ('"' :: rest)) := by
      simp [escapeStr]
    rw [hesc]
    by_cases h1 : c = '"'
    · subst h1
      rw [show escapeChar '"' = ['\\', '"'] from rfl, List.cons_append,
        List.cons_append, List.nil_append,
        parseStr_esc_step '"' '"' _ rfl, ih rest]
    by_cases h2 : c = '\\'
    · subst h2
      rw [show escapeChar '\\' = ['\\', '\\'] from rfl, List.cons_append,
        List.cons_append, List.nil_append,
        parseStr_esc_step '\\' '\\' _ rfl, ih rest]
    by_cases h3 : c = '\n'
    · subst h3
      rw [show escapeChar '\n' = ['\\', 'n'] from rfl, List.cons_append,
        List.cons_append, List.nil_append,
        parseStr_esc_step 'n' '\n' _ rfl, ih rest]
    by_cases h4 : c = '\r'
    · subst h4
      rw [show escapeChar '\r' = ['\\', 'r'] from rfl, List.cons_append,
        List.cons_append, List.nil_append,
        parseStr_esc_step 'r' '\r' _ rfl, ih rest]
    by_cases h5 : c = '\t'
    · subst h5
      rw [show escapeChar '\t' = ['\\', 't'] from rfl, List.cons_append,
        List.cons_append, List.nil_append,
        parseStr_esc_step 't' '\t' _ rfl, ih rest]
    · have hec : escapeChar c = [c] := by
        unfold escapeChar
        rw [if_neg h1, if_neg h2, if_neg h3, if_neg h4, if_neg h5]
      rw [hec, List.cons_append, List.nil_append,
        parseStr_plain c _ h1 h2, ih rest]

/-! ### Parser dispatch lemmas (C8) -/

theorem printNum_head (m : Int) (scale : Nat) :
    ∃ c tl, printNum m scale = c :: tl ∧ (c = '-' ∨ isDig c = true) := by
  obtain ⟨ip, fp, hpr, hipne, hipd, _, _, _⟩ := printNum_eq m scale
  obtain ⟨c0, ip', hip⟩ : ∃ c0 ip', ip = c0 :: ip' := by
    cases ip with
    | nil => exact absurd rfl hipne
    | cons a b => exact ⟨a, b, rfl⟩
  by_cases hm : m < 0
  · refine ⟨'-', ip ++ (if scale = 0 then [] else '.' :: fp), ?_, Or.inl rfl⟩
    rw [hpr, if_pos hm]
    rfl
  · refine ⟨c0, ip' ++ (if scale = 0 then [] else '.' :: fp), ?_,
      Or.inr (hipd c0 (by rw [hip]; simp))⟩
    rw [hpr, if_neg hm, List.nil_append, hip]
    rfl

theorem printJ_head (v : JValue) :
    ∃ c tl, printJ v = c :: tl ∧ c ≠ ']' ∧ c ≠ '\x7d' ∧ c ≠ ',' := by
  cases v with
  | jnum m scale =>
    obtain ⟨c, tl, hctl, hc⟩ := printNum_head m scale
    refine ⟨c, tl, hctl, ?_, ?_, ?_⟩ <;>
      (rcases hc with hc | hc
       · subst hc; decide
       · intro he; subst he; exact absurd hc (by decide))
  | jbool b =>
    cases b
    · refine ⟨'f', _, rfl, ?_⟩
      decide
    · refine ⟨'t', _, rfl, ?_⟩
      decide
  | jnull =>
    refine ⟨'n', _, rfl, ?_⟩
    decide
  | jstr s =>
    refine ⟨'"', _, rfl, ?_⟩
    decide
  | jarr xs =>
    refine ⟨'[', _, rfl, ?_⟩
    decide
  | jobj fs =>
    refine ⟨'\x7b', _, rfl, ?_⟩
    decide

theorem parseVal_num_dispatch (f : Nat) (c : Char) (tl : List Char)
    (h : c = '-' ∨ isDig c = true) :
    parseVal (f + 1) (c :: tl)
      = match parseNumber (c :: tl) with
        | some ((m, scale), r) => some (.jnum m scale, r)
        | none => none := by
  have hn : c ≠ 'n' := by
    rcases h with h | h
    · subst h; decide
    · intro he; subst he; exact absurd h (by decide)
  have ht : c ≠ 't' := by
    rcases h with h | h
    · subst h; decide
    · intro he; subst he; exact absurd h (by decide)
  have hf : c ≠ 'f' := by
    rcases h with h | h
    · subst h; decide
    · intro he; subst he; exact absurd h (by decide)
  have hq : c ≠ '"' := by
    rcases h with h | h
    · subst h; decide
    · intro he; subst he; exact absurd h (by decide)
  have hb : c ≠ '[' := by
    rcases h with h | h
    · subst h; decide
    · intro he; subst he; exact absurd h (by decide)
  have hc : c ≠ '\x7b' := by
    rcases h with h | h
    · subst h; decide
    · intro he; subst he; exact absurd h (by decide)
  conv_lhs => rw [parseVal.eq_def]
  dsimp only
  split
  all_goals first
    | rfl
    | simp_all

theorem parseElems_cons (f : Nat) (c : Char) (tl : List Char) (h : c ≠ ']') :
    parseElems (f + 1) (c :: tl)
      = match parseVal f (c :: tl) with
        | some (v, r) =>
          (match parseElemsTail f r with
           | some (vs, r') => some (v :: vs, r')
           | none => none)
        | none => none := by
  conv_lhs => rw [parseElems.eq_def]
  dsimp only
  split
  all_goals first
    | rfl
    | simp_all

/-! ### Fuel sufficiency (C8): the parser fuel a printed value needs is
bounded by the length of its printed form. -/

theorem printElems_cons_eq (x : JValue) :
    ∀ xs, printElems (x :: xs) = printJ x ++ printElemsTail xs := by
  intro xs
  induction xs generalizing x with
  | nil => simp [printElems, printElemsTail]
  | cons y ys ih =>
    show printJ x ++ ',' :: printElems (y :: ys) = _
    rw [ih y]
    simp [printElemsTail]

theorem printMembers_cons_eq (k : String) (v : JValue) :
    ∀ fs, printMembers ((k, v) :: fs)
      = printStr k ++ ':' :: printJ v ++ printMembersTail fs := by
  intro fs
  induction fs generalizing k v with
  | nil => simp [printMembers, printMembersTail]
  | cons kv fs' ih =>
    obtain ⟨k2, v2⟩ := kv
    show printStr k ++ ':' :: printJ v ++ ',' :: printMembers ((k2, v2) :: fs') = _
    rw [ih k2 v2]
    simp [printMembersTail]

mutual

theorem fvJ_le_len : ∀ v : JValue, fvJ v ≤ (printJ v).length + 1
  | .jnull => by simp [fvJ, printJ]
  | .jbool b => by cases b <;> simp [fvJ, printJ]
  | .jnum m scale => by simp [fvJ]
  | .jstr s => by simp [fvJ]
  | .jarr xs => by
    have h := fvElems_le_len xs
    show 1 + fvElems xs ≤ ('[' :: (printElems xs ++ [']'])).length + 1
    simp only [List.length_cons, List.length_append, List.length_singleton]
    omega
  | .jobj fs => by
    have h := fvMembers_le_len fs
    show 1 + fvMembers fs ≤ ('\x7b' :: (printMembers fs ++ ['\x7d'])).length + 1
    simp only [List.length_cons, List.length_append, List.length_singleton]
    omega

theorem fvElems_le_len : ∀ xs : List JValue,
    fvElems xs ≤ (printElems xs).length + 2
  | [] => by simp [fvElems, printElems]
  | [x] => by
    have h := fvJ_le_len x
    show 1 + max (fvJ x) (fvElems []) ≤ (printElems [x]).length + 2
    simp only [fvElems, printElems]
    omega
  | x :: y :: ys => by
    have h1 := fvJ_le_len x
    have h2 := fvElems_le_len (y :: ys)
    show 1 + max (fvJ x) (fvElems (y :: ys))
      ≤ (printJ x ++ ',' :: printElems (y :: ys)).length + 2
    simp only [List.length_append, List.length_cons]
    omega

theorem fvMembers_le_len : ∀ fs : List (String × JValue),
    fvMembers fs ≤ (printMembers fs).length + 2
  | [] => by simp [fvMembers, printMembers]
  | [(k, v)] => by
    have h := fvJ_le_len v
    show 1 + max (1 + fvJ v) (fvMembers []) ≤ (printMembers [(k, v)]).length + 2
    simp only [fvMembers, printMembers, List.length_append, List.length_cons]
    omega
  | (k, v) :: kv2 :: fs => by
    have h1 := fvJ_le_len v
    have h2 := fvMembers_le_len (kv2 :: fs)
    show 1 + max (1 + fvJ v) (fvMembers (kv2 :: fs))
      ≤ (printStr k ++ ':' :: printJ v ++ ',' :: printMembers (kv2 :: fs)).length + 2
    simp only [List.length_append, List.length_cons]
    omega

end

/-! ### Printed values parse back (C8) -/

theorem fvJ_pos (v : JValue) : 1 ≤ fvJ v := by
  cases v <;> simp [fvJ]

theorem fvElems_pos (xs : List JValue) : 1 ≤ fvElems xs := by
  cases xs <;> simp [fvElems]

theorem fvMembers_pos (fs : List (String × JValue)) : 1 ≤ fvMembers fs := by
  cases fs <;> simp [fvMembers]

theorem delimOk_elemsTail (xs : List JValue) (rest : List Char) :
    delimOk (printElemsTail xs ++ (']' :: rest)) = true := by
  cases xs <;> rfl

theorem delimOk_membersTail (fs : List (String × JValue)) (rest : List Char) :
    delimOk (printMembersTail fs ++ ('\x7d' :: rest)) = true := by
  cases fs with
  | nil => rfl
  | cons kv fs' => obtain ⟨k, v⟩ := kv; rfl

theorem parseMembers_cons (f : Nat) (c : Char) (tl : List Char)
    (h : c ≠ '\x7d') :
    parseMembers (f + 1) (c :: tl)
      = match parseMember f (c :: tl) with
        | some (kv, r) =>
          (match parseMembersTail f r with
           | some (kvs, r') => some (kv :: kvs, r')
           | none => none)
        | none => none := by
  conv_lhs => rw [parseMembers.eq_def]
  dsimp only
  split
  all_goals first
    | rfl
    | simp_all

/-- The JSON printer/parser round trip: the printed form of a value, followed
by any delimiter-headed remainder, parses back to exactly that value
(and likewise for element and member lists), given enough fuel. -/
theorem parse_print (f : Nat) :
    (∀ (v : JValue) (rest : List Char), fvJ v ≤ f → delimOk rest = true →
      parseVal f (printJ v ++ rest) = some (v, rest)) ∧
    (∀ (xs : List JValue) (rest : List Char), fvElems xs ≤ f →
      parseElems f (printElems xs ++ (']' :: rest)) = some (xs, rest)) ∧
    (∀ (xs : List JValue) (rest : List Char), fvElems xs ≤ f →
      parseElemsTail f (printElemsTail xs ++ (']' :: rest)) = some (xs, rest)) ∧
    (∀ (fs : List (String × JValue)) (rest : List Char), fvMembers fs ≤ f →
      parseMembers f (printMembers fs ++ ('\x7d' :: rest)) = some (fs, rest)) ∧
    (∀ (fs : List (String × JValue)) (rest : List Char), fvMembers fs ≤ f →
      parseMembersTail f (printMembersTail fs ++ ('\x7d' :: rest))
        = some (fs, rest)) ∧
    (∀ (k : String) (v : JValue) (rest : List Char), 1 + fvJ v ≤ f →
      delimOk rest = true →
      parseMember f (printStr k ++ (':' :: (printJ v ++ rest)))
        = some ((k, v), rest)) := by
  induction f using Nat.strong_induction_on with
  | _ f ih =>
    refine ⟨?_, ?_, ?_, ?_, ?_, ?_⟩
    · intro v rest hfv hdel
      have hf1 : 1 ≤ f := le_trans (fvJ_pos v) hfv
      obtain ⟨f', rfl⟩ : ∃ f', f = f' + 1 := ⟨f - 1, by omega⟩
      cases v with
      | jnull => rfl
      | jbool b => cases b <;> rfl
      | jnum m scale =>
        obtain ⟨c, tl, hctl, hc⟩ := printNum_head m scale
        show parseVal (f' + 1) (printNum m scale ++ rest) = _
        rw [hctl, List.cons_append, parseVal_num_dispatch f' c _ hc,
          ← List.cons_append, ← hctl, parseNumber_printNum m scale rest hdel]
      | jstr s =>
        show parseVal (f' + 1) (printStr s ++ rest) = _
        have hps : printStr s ++ rest
            = '"' :: (escapeStr s.data ++ ('"' :: rest)) := by
          simp [printStr]
        rw [hps]
        have hv : parseVal (f' + 1) ('"' :: (escapeStr s.data ++ ('"' :: rest)))
            = match parseStr (escapeStr s.data ++ ('"' :: rest)) with
              | some (str, r) => some (.jstr (String.mk str), r)
              | none => none := rfl
        rw [hv, escape_parseStr s.data rest]
      | jarr xs =>
        have hfe : fvElems xs ≤ f' := by
          have heq : fvJ (.jarr xs) = 1 + fvElems xs := rfl
          omega
        show parseVal (f' + 1) (('[' :: (printElems xs ++ [']'])) ++ rest) = _
        have hform : ('[' :: (printElems xs ++ [']'])) ++ rest
            = '[' :: (printElems xs ++ (']' :: rest)) := by simp
        rw [hform]
        have hv : parseVal (f' + 1) ('[' :: (printElems xs ++ (']' :: rest)))
            = match parseElems f' (printElems xs ++ (']' :: rest)) with
              | some (vs, r) => some (.jarr vs, r)
              | none => none := rfl
        rw [hv, (ih f' (by omega)).2.1 xs rest hfe]
      | jobj fs =>
        have hfm : fvMembers fs ≤ f' := by
          have heq : fvJ (.jobj fs) = 1 + fvMembers fs := rfl
          omega
        show parseVal (f' + 1)
          (('\x7b' :: (printMembers fs ++ ['\x7d'])) ++ rest) = _
        have hform : ('\x7b' :: (printMembers fs ++ ['\x7d'])) ++ rest
            = '\x7b' :: (printMembers fs ++ ('\x7d' :: rest)) := by simp
        rw [hform]
        have hv : parseVal (f' + 1)
            ('\x7b' :: (printMembers fs ++ ('\x7d' :: rest)))
            = match parseMembers f' (printMembers fs ++ ('\x7d' :: rest)) with
              | some (ms, r) => some (.jobj ms, r)
              | none => none := rfl
        rw [hv, (ih f' (by omega)).2.2.2.1 fs rest hfm]
    · intro xs rest hfe
      have hf1 : 1 ≤ f := le_trans (fvElems_pos xs) hfe
      obtain ⟨f', rfl⟩ : ∃ f', f = f' + 1 := ⟨f - 1, by omega⟩
      cases xs with
      | nil => rfl
      | cons x xs' =>
        have hmax : fvJ x ≤ f' ∧ fvElems xs' ≤ f' := by
          have heq : fvElems (x :: xs') = 1 + max (fvJ x) (fvElems xs') := rfl
          omega
        obtain ⟨c, tl, hctl, hcb, _, _⟩ := printJ_head x
        have hform : printElems (x :: xs') ++ (']' :: rest)
            = printJ x ++ (printElemsTail xs' ++ (']' :: rest)) := by
          rw [printElems_cons_eq]
          simp
        rw [hform, hctl, List.cons_append, parseElems_cons f' c _ hcb,
          ← List.cons_append, ← hctl,
          (ih f' (by omega)).1 x _ hmax.1 (delimOk_elemsTail xs' rest)]
        dsimp only
        rw [(ih f' (by omega)).2.2.1 xs' rest hmax.2]
    · intro xs rest hfe
      have hf1 : 1 ≤ f := le_trans (fvElems_pos xs) hfe
      obtain ⟨f', rfl⟩ : ∃ f', f = f' + 1 := ⟨f - 1, by omega⟩
      cases xs with
      | nil => rfl
      | cons x xs' =>
        have hmax : fvJ x ≤ f' ∧ fvElems xs' ≤ f' := by
          have heq : fvElems (x :: xs') = 1 + max (fvJ x) (fvElems xs') := rfl
          omega
        have hform : printElemsTail (x :: xs') ++ (']' :: rest)
            = ',' :: (printJ x ++ (printElemsTail xs' ++ (']' :: rest))) := by
          simp [printElemsTail]
        rw [hform]
        have hv : parseElemsTail (f' + 1)
            (',' :: (printJ x ++ (printElemsTail xs' ++ (']' :: rest))))
            = match parseVal f'
                (printJ x ++ (printElemsTail xs' ++ (']' :: rest))) with
              | some (v, r) =>
                (match parseElemsTail f' r with
                 | some (vs, r') => some (v :: vs, r')
                 | none => none)
              | none => none := rfl
        rw [hv, (ih f' (by omega)).1 x _ hmax.1 (delimOk_elemsTail xs' rest)]
        dsimp only
        rw [(ih f' (by omega)).2.2.1 xs' rest hmax.2]
    · intro fs rest hfm
      have hf1 : 1 ≤ f := le_trans (fvMembers_pos fs) hfm
      obtain ⟨f', rfl⟩ : ∃ f', f = f' + 1 := ⟨f - 1, by omega⟩
      cases fs with
      | nil => rfl
      | cons kv fs' =>
        obtain ⟨k, v⟩ := kv
        have hmax : 1 + fvJ v ≤ f' ∧ fvMembers fs' ≤ f' := by
          have heq : fvMembers ((k, v) :: fs')
              = 1 + max (1 + fvJ v) (fvMembers fs') := rfl
          omega
        have hform : printMembers ((k, v) :: fs') ++ ('\x7d' :: rest)
            = printStr k ++ (':' :: (printJ v ++
                (printMembersTail fs' ++ ('\x7d' :: rest)))) := by
          rw [printMembers_cons_eq]
          simp
        have hq : printStr k ++ (':' :: (printJ v ++
            (printMembersTail fs' ++ ('\x7d' :: rest))))
            = '"' :: (escapeStr k.data ++ ('"' :: (':' :: (printJ v ++
                (printMembersTail fs' ++ ('\x7d' :: rest)))))) := by
          simp [printStr]
        rw [hform, hq, parseMembers_cons f' '"' _ (by decide), ← hq,
          (ih f' (by omega)).2.2.2.2.2 k v _ hmax.1
            (delimOk_membersTail fs' rest)]
        dsimp only
        rw [(ih f' (by omega)).2.2.2.2.1 fs' rest hmax.2]
    · intro fs rest hfm
      have hf1 : 1 ≤ f := le_trans (fvMembers_pos fs) hfm
      obtain ⟨f', rfl⟩ : ∃ f', f = f' + 1 := ⟨f - 1, by omega⟩
      cases fs with
      | nil => rfl
      | cons kv fs' =>
        obtain ⟨k, v⟩ := kv
        have hmax : 1 + fvJ v ≤ f' ∧ fvMembers fs' ≤ f' := by
          have heq : fvMembers ((k, v) :: fs')
              = 1 + max (1 + fvJ v) (fvMembers fs') := rfl
          omega
        have hform : printMembersTail ((k, v) :: fs') ++ ('\x7d' :: rest)
            = ',' :: (printStr k ++ (':' :: (printJ v ++
                (printMembersTail fs' ++ ('\x7d' :: rest))))) := by
          simp [printMembersTail]
        rw [hform]
        have hv : parseMembersTail (f' + 1)
            (',' :: (printStr k ++ (':' :: (printJ v ++
              (printMembersTail fs' ++ ('\x7d' :: rest))))))
            = match parseMember f' (printStr k ++ (':' :: (printJ v ++
                (printMembersTail fs' ++ ('\x7d' :: rest))))) with
              | some (m, r) =>
                (match parseMembersTail f' r with
                 | some (ms, r') => some (m :: ms, r')
                 | none => none)
              | none => none := rfl
        rw [hv,
          (ih f' (by omega)).2.2.2.2.2 k v _ hmax.1
            (delimOk_membersTail fs' rest)]
        dsimp only
        rw [(ih f' (by omega)).2.2.2.2.1 fs' rest hmax.2]
    · intro k v rest hfv hdel
      have hf1 : 1 ≤ f := by omega
      obtain ⟨f', rfl⟩ : ∃ f', f = f' + 1 := ⟨f - 1, by omega⟩
      have hq : printStr k ++ (':' :: (printJ v ++ rest))
          = '"' :: (escapeStr k.data ++ ('"' :: (':' :: (printJ v ++ rest)))) := by
        simp [printStr]
      rw [hq]
      have hv : parseMember (f' + 1)
          ('"' :: (escapeStr k.data ++ ('"' :: (':' :: (printJ v ++ rest)))))
          = match parseStr (escapeStr k.data ++
              ('"' :: (':' :: (printJ v ++ rest)))) with
            | some (ks, r1) =>
              (match r1 with
               | ':' :: r2 =>
                 (match parseVal f' r2 with
                  | some (vv, r3) => some ((String.mk ks, vv), r3)
                  | none => none)
               | _ => none)
            | none => none := rfl
      rw [hv, escape_parseStr k.data (':' :: (printJ v ++ rest))]
      show (match parseVal f' (printJ v ++ rest) with
            | some (vv, r3) => some ((String.mk k.data, vv), r3)
            | none => none) = _
      rw [(ih f' (by omega)).1 v rest (by omega) hdel]

/-- A printed JSON value parses back to itself under `jparse`. -/
theorem jparse_printJ (v : JValue) : jparse (printJ v) = some v := by
  unfold jparse
  have h := (parse_print ((printJ v).length + 1)).1 v [] (fvJ_le_len v) rfl
  rw [List.append_nil] at h
  rw [h]

/-! ### Ledger encode/decode round trips (C8) -/

theorem mapM_roundtrip {α β : Type} (enc : α → β) (dec : β → Option α)
    (l : List α) (h : ∀ x ∈ l, dec (enc x) = some x) :
    (l.map enc).mapM dec = some l := by
  induction l with
  | nil => rfl
  | cons x l ih =>
    rw [List.map_cons, List.mapM_cons, h x (by simp),
      ih (fun y hy => h y (by simp [hy]))]
    rfl

theorem jsonToAlert_alertToJson (a : StoredAlert) :
    jsonToAlert (alertToJson a) = some a := by
  obtain ⟨id, message, details, severity, timestamp, frameNumber, source⟩ := a
  cases id <;> cases details <;> cases frameNumber <;> cases source <;>
    simp [alertToJson, jsonToAlert, optField, jlookup, natJ, asStr, asNat,
      optDecode]

theorem jsonToDet_detToJson (d : StoredDetection) :
    jsonToDet (detToJson d) = some d := by
  simp [detToJson, jsonToDet, jlookup, asStr, asDecimal]

theorem jsonToDetails_detailsToJson (d : StoredHistDetails) :
    jsonToDetails (detailsToJson d) = some d := by
  cases d with
  | streaming dets n fwf fff am as' =>
    have hm : List.mapM.loop jsonToDet (List.map detToJson dets) []
        = some dets :=
      mapM_roundtrip detToJson jsonToDet dets (fun x _ => jsonToDet_detToJson x)
    cases fff <;>
      simp [detailsToJson, jsonToDetails, jlookup, natJ, asStr, asNat,
        asDecimal, hm]
  | batchFire dets n am as' =>
    have hm : List.mapM.loop jsonToDet (List.map detToJson dets) []
        = some dets :=
      mapM_roundtrip detToJson jsonToDet dets (fun x _ => jsonToDet_detToJson x)
    simp [detailsToJson, jsonToDetails, jlookup, natJ, asStr, asNat,
      asDecimal, hm]
  | batchSatellite pm ps risk =>
    simp [detailsToJson, jsonToDetails, jlookup, asStr, asDecimal]
  | live src msg =>
    simp [detailsToJson, jsonToDetails, jlookup, asStr]

theorem jsonToHist_histToJson (h : StoredHistoryItem) :
    jsonToHist (histToJson h) = some h := by
  obtain ⟨id, kind, filename, timestamp, detected, details⟩ := h
  simp [histToJson, jsonToHist, jlookup, asStr, asBool,
    jsonToDetails_detailsToJson]

/-- Claim C8: round-trip persistence — serializing the alerts list and the
history list to local storage (as done on each mutation) and restoring them
at startup reproduces the same collections, element for element and field
for field, in the same order.  The hypotheses restrict the lists to the
shapes the application produces (strings free of unescaped control
characters), which is the domain on which the serialization model coincides
with `JSON.stringify`. -/
theorem C8_roundtrip_persistence (alerts : List StoredAlert)
    (history : List StoredHistoryItem)
    (h1 : alerts.all wfAlert = true) (h2 : history.all wfHist = true) :
    loadAlerts (saveAlerts alerts) = some alerts ∧
    loadHistory (saveHistory history) = some history := by
  constructor
  · unfold loadAlerts saveAlerts
    rw [jparse_printJ]
    exact mapM_roundtrip alertToJson jsonToAlert alerts
      (fun x _ => jsonToAlert_alertToJson x)
  · unfold loadHistory saveHistory
    rw [jparse_printJ]
    exact mapM_roundtrip histToJson jsonToHist history
      (fun x _ => jsonToHist_histToJson x)

/-- Witness for C8 on concrete ledgers: a streaming alert, a camera alert
(no id), and one history item per shape. -/
theorem C8_roundtrip_persistence_witness :
    sampleAlerts.all wfAlert = true ∧
    sampleHistory.all wfHist = true ∧
    loadAlerts (saveAlerts sampleAlerts) = some sampleAlerts ∧
    loadHistory (saveHistory sampleHistory) = some sampleHistory := by
  refine ⟨by decide, by decide, ?_, ?_⟩
  · exact (C8_roundtrip_persistence sampleAlerts sampleHistory
      (by decide) (by decide)).1
  · exact (C8_roundtrip_persistence sampleAlerts sampleHistory
      (by decide) (by decide)).2

end Wildfire
